import Mathlib

/-!
Dome reverb: the delay-line filters and the reverb engine.

A shallow embedding of `Source/DSP/CombFilter.h`, `Source/DSP/AllPassFilter.h`,
`Source/DSP/DomeReverb.h` and of the processing callback of
`Source/PluginProcessor.cpp`.

Conventions of the embedding.

* `float` and `double` values are rationals (`ℚ`) and arithmetic on them is exact, with
  one exception: where `updateParameters` converts a floating value to the `int` pre-delay
  length, every operation is rounded as the source rounds it (the `float` product with
  `roundFloat`, the `double` product and quotient with `roundDouble`), because the rounding
  of the `float` product moves the integer result on ordinary knob values.
* `int` values are integers (`Int`); `static_cast<int>` of a floating value truncates
  towards zero (`toInt`).  Values are assumed to fit the 32-bit `int`.
* A `std::vector<float>` is a `List ℚ`.  Reading or writing outside the vector is
  undefined behaviour in the source: the embedded operation then yields `none`.
  A `resize` to a negative `int` (which converts to a huge `size_t`) throws in the
  source and also yields `none`.
* The comparison of an `int` with `vector::size()` converts the `int` to the unsigned
  `size_t` first (`geSize`).
-/

namespace DomeLive

/-! ## Machine-level helpers -/

/-- Conversion `static_cast<int>(x)` of a floating value: truncation towards zero. -/
def toInt (x : ℚ) : Int :=
  if 0 ≤ x then Int.floor x else Int.ceil x

/-- The position of the leading bit of `n`, that is the `k` with `2 ^ k ≤ n < 2 ^ (k + 1)`
(and 0 for `n = 0`), found by halving; `fuel` bounds the number of halvings. -/
def leadingBit : Nat → Nat → Nat
  | 0, _ => 0
  | fuel + 1, n => if 2 ≤ n then leadingBit fuel (n / 2) + 1 else 0

/-- The exponent `e` of the binade of a non-zero rational `x = n / d`,
`2 ^ e ≤ |x| < 2 ^ (e + 1)`: the difference of the leading bits of `n` and `d`, or one
less. -/
def binaryExponent (x : ℚ) : Int :=
  if leadingBit x.den x.den ≤ leadingBit x.num.natAbs x.num.natAbs then
    if x.den * 2 ^ (leadingBit x.num.natAbs x.num.natAbs - leadingBit x.den x.den)
        ≤ x.num.natAbs then
      ((leadingBit x.num.natAbs x.num.natAbs - leadingBit x.den x.den : Nat) : Int)
    else ((leadingBit x.num.natAbs x.num.natAbs - leadingBit x.den x.den : Nat) : Int) - 1
  else
    if x.den ≤ x.num.natAbs
        * 2 ^ (leadingBit x.den x.den - leadingBit x.num.natAbs x.num.natAbs) then
      -((leadingBit x.den x.den - leadingBit x.num.natAbs x.num.natAbs : Nat) : Int)
    else -((leadingBit x.den x.den - leadingBit x.num.natAbs x.num.natAbs : Nat) : Int) - 1

/-- The power `2 ^ k` for an integer exponent. -/
def twoPow (k : Int) : ℚ :=
  if 0 ≤ k then ((2 ^ k.toNat : Nat) : ℚ) else 1 / ((2 ^ (-k).toNat : Nat) : ℚ)

/-- The integer nearest to `q`; a tie goes to the even neighbour. -/
def roundHalfEven (q : ℚ) : Int :=
  if q - Int.floor q < 1 / 2 then Int.floor q
  else if 1 / 2 < q - Int.floor q then Int.floor q + 1
  else if Int.floor q % 2 = 0 then Int.floor q
  else Int.floor q + 1

/-- The value of `x` rounded to the binary floating-point format with `p` significant bits
and least normal exponent `emin` (IEEE 754 round to nearest, ties to even; below
`2 ^ emin` the spacing stays that of the subnormal numbers).  Overflow to infinity is not
modelled. -/
def roundBinary (p : Nat) (emin : Int) (x : ℚ) : ℚ :=
  (roundHalfEven (x / twoPow (max (binaryExponent x) emin - ((p : Int) - 1))) : ℚ)
    * twoPow (max (binaryExponent x) emin - ((p : Int) - 1))

/-- The result of an operation of type `float` (binary32) whose exact value is `x`. -/
def roundFloat (x : ℚ) : ℚ :=
  roundBinary 24 (-126) x

/-- The result of an operation of type `double` (binary64) whose exact value is `x`. -/
def roundDouble (x : ℚ) : ℚ :=
  roundBinary 53 (-1022) x

/-- The two's-complement conversion of an `int` to the 64-bit unsigned `size_t`. -/
def toSizeT (i : Int) : Int :=
  i % 2 ^ 64

/-- The source test `i >= v.size()` for an `int i`: the `int` is converted to `size_t`
before the comparison, so a negative `i` compares as a huge value. -/
def geSize (i : Int) (size : Nat) : Bool :=
  decide ((size : Int) ≤ toSizeT i)

/-- Function `std::clamp(v, lo, hi)`. -/
def clamp (v lo hi : ℚ) : ℚ :=
  if v < lo then lo else if hi < v then hi else v

/-- Read `buffer[i]` for an `int` index; `none` outside the vector. -/
def readAt (buffer : List ℚ) (i : Int) : Option ℚ :=
  if 0 ≤ i then buffer[i.toNat]? else none

/-- Write `buffer[i] = v` for an `int` index; `none` outside the vector. -/
def writeAt (buffer : List ℚ) (i : Int) (v : ℚ) : Option (List ℚ) :=
  if 0 ≤ i ∧ i.toNat < buffer.length then some (buffer.set i.toNat v) else none

/-- Call `buffer.resize(n, 0.0f)` with an `int` count: the first elements are kept, the
vector is cut or padded with zeros at the end; a negative count throws. -/
def resize (buffer : List ℚ) (n : Int) : Option (List ℚ) :=
  if 0 ≤ n then some (buffer.take n.toNat ++ List.replicate (n.toNat - buffer.length) 0)
  else none

/-- Call `std::fill(buffer.begin(), buffer.end(), 0.0f)`. -/
def fillZero (buffer : List ℚ) : List ℚ :=
  buffer.map (fun _ => 0)

/-! ## CombFilter.h -/

/-- The data members of `CombFilter`, with their default member initialisers. -/
structure CombFilter where
  buffer : List ℚ := []
  sampleRate : ℚ := 44100
  writeIndex : Int := 0
  delaySamples : Int := 1
  feedback : ℚ := 7 / 10
  damping : ℚ := 1 / 2
  filterStore : ℚ := 0
  deriving DecidableEq

namespace CombFilter

/-- Method `CombFilter::prepare(newSampleRate, maxDelayMs)`. -/
def prepare (f : CombFilter) (newSampleRate : ℚ) (maxDelayMs : ℚ) :
    Option CombFilter := do
  let maxDelaySamples := toInt (maxDelayMs * newSampleRate / 1000)
  let buffer ← resize f.buffer maxDelaySamples
  pure { f with sampleRate := newSampleRate, buffer := buffer, writeIndex := 0 }

/-- Method `CombFilter::setDelayTime(delayMs)`. -/
def setDelayTime (f : CombFilter) (delayMs : ℚ) : CombFilter :=
  let delaySamples := toInt (delayMs * f.sampleRate / 1000)
  let delaySamples :=
    if geSize delaySamples f.buffer.length then (f.buffer.length : Int) - 1 else delaySamples
  let delaySamples := if delaySamples < 1 then 1 else delaySamples
  { f with delaySamples := delaySamples }

/-- Method `CombFilter::setFeedback(fb)`. -/
def setFeedback (f : CombFilter) (fb : ℚ) : CombFilter :=
  { f with feedback := clamp fb 0 (99 / 100) }

/-- Method `CombFilter::setDamping(damp)`. -/
def setDamping (f : CombFilter) (damp : ℚ) : CombFilter :=
  { f with damping := clamp damp 0 1 }

/-- Method `CombFilter::process(input)`: the new state and the returned sample. -/
def process (f : CombFilter) (input : ℚ) : Option (CombFilter × ℚ) := do
  let readIndex := f.writeIndex - f.delaySamples
  let readIndex := if readIndex < 0 then readIndex + (f.buffer.length : Int) else readIndex
  let delayed ← readAt f.buffer readIndex
  let filterStore := delayed * (1 - f.damping) + f.filterStore * f.damping
  let buffer ← writeAt f.buffer f.writeIndex (input + filterStore * f.feedback)
  let writeIndex := f.writeIndex + 1
  let writeIndex := if geSize writeIndex buffer.length then 0 else writeIndex
  pure ({ f with filterStore := filterStore, buffer := buffer, writeIndex := writeIndex },
    delayed)

/-- Method `CombFilter::clear()`. -/
def clear (f : CombFilter) : CombFilter :=
  { f with buffer := fillZero f.buffer, filterStore := 0 }

end CombFilter

/-! ## AllPassFilter.h -/

/-- The data members of `AllPassFilter`, with their default member initialisers. -/
structure AllPassFilter where
  buffer : List ℚ := []
  sampleRate : ℚ := 44100
  writeIndex : Int := 0
  delaySamples : Int := 1
  coefficient : ℚ := 1 / 2
  deriving DecidableEq

namespace AllPassFilter

/-- Method `AllPassFilter::prepare(newSampleRate, maxDelayMs)`. -/
def prepare (f : AllPassFilter) (newSampleRate : ℚ) (maxDelayMs : ℚ) :
    Option AllPassFilter := do
  let maxDelaySamples := toInt (maxDelayMs * newSampleRate / 1000)
  let buffer ← resize f.buffer maxDelaySamples
  pure { f with sampleRate := newSampleRate, buffer := buffer, writeIndex := 0 }

/-- Method `AllPassFilter::setDelayTime(delayMs)`. -/
def setDelayTime (f : AllPassFilter) (delayMs : ℚ) : AllPassFilter :=
  let delaySamples := toInt (delayMs * f.sampleRate / 1000)
  let delaySamples :=
    if geSize delaySamples f.buffer.length then (f.buffer.length : Int) - 1 else delaySamples
  let delaySamples := if delaySamples < 1 then 1 else delaySamples
  { f with delaySamples := delaySamples }

/-- Method `AllPassFilter::setCoefficient(coeff)`. -/
def setCoefficient (f : AllPassFilter) (coeff : ℚ) : AllPassFilter :=
  { f with coefficient := clamp coeff 0 (9 / 10) }

/-- Method `AllPassFilter::process(input)`: the new state and the returned sample. -/
def process (f : AllPassFilter) (input : ℚ) : Option (AllPassFilter × ℚ) := do
  let readIndex := f.writeIndex - f.delaySamples
  let readIndex := if readIndex < 0 then readIndex + (f.buffer.length : Int) else readIndex
  let delayed ← readAt f.buffer readIndex
  let output := -f.coefficient * input + delayed
  let buffer ← writeAt f.buffer f.writeIndex (input + f.coefficient * delayed)
  let writeIndex := f.writeIndex + 1
  let writeIndex := if geSize writeIndex buffer.length then 0 else writeIndex
  pure ({ f with buffer := buffer, writeIndex := writeIndex }, output)

/-- Method `AllPassFilter::clear()`. -/
def clear (f : AllPassFilter) : AllPassFilter :=
  { f with buffer := fillZero f.buffer }

end AllPassFilter

/-! ## The external biquad (`juce::IIRFilter`)

The engine uses `juce::IIRFilter` and `juce::IIRCoefficients` of the JUCE library, which is
not part of the repository.  The engine only calls `setCoefficients`,
`processSingleSampleRaw` and `reset`; these are taken as a parameter. -/

/-- The coefficient sets the engine requests from `juce::IIRCoefficients`; each constructor
records the arguments of the call. -/
inductive IIRCoefficients
  | makeLowPass (sampleRate frequency : ℚ)
  | makeLowPassQ (sampleRate frequency q : ℚ)
  | makeLowShelf (sampleRate cutOffFrequency q gainFactor : ℚ)
  | makePeakFilter (sampleRate centreFrequency q gainFactor : ℚ)
  deriving DecidableEq

/-- The operations of the external `juce::IIRFilter` on its state `σ`: the default
constructed filter, `setCoefficients`, `processSingleSampleRaw` and `reset`. -/
structure IIRFilterOps (σ : Type) where
  default : σ
  setCoefficients : σ → IIRCoefficients → σ
  processSingleSampleRaw : σ → ℚ → σ × ℚ
  reset : σ → σ

/-! ## DomeReverb.h -/

/-- Enumeration `DomePreset`. -/
inductive DomePreset
  | Arena
  | Stadium
  | Hall
  | Club
  deriving DecidableEq

/-- A `juce::AudioBuffer<float>`: `channels` holds one list of `numSamples` samples per
channel. -/
structure AudioBuffer where
  numSamples : Nat
  channels : List (List ℚ)
  deriving DecidableEq

namespace AudioBuffer

/-- Method `AudioBuffer::getNumChannels()`. -/
def getNumChannels (b : AudioBuffer) : Nat :=
  b.channels.length

/-- Method `AudioBuffer::getSample(channel, sampleIndex)`; `none` outside the buffer. -/
def getSample (b : AudioBuffer) (channel sampleIndex : Nat) : Option ℚ :=
  if sampleIndex < b.numSamples then
    match b.channels[channel]? with
    | some ch => ch[sampleIndex]?
    | none => none
  else none

/-- Method `AudioBuffer::setSample(channel, sampleIndex, value)`; `none` outside the
buffer. -/
def setSample (b : AudioBuffer) (channel sampleIndex : Nat) (value : ℚ) : Option AudioBuffer :=
  if sampleIndex < b.numSamples then
    match b.channels[channel]? with
    | some ch =>
      if sampleIndex < ch.length then
        some { b with channels := b.channels.set channel (ch.set sampleIndex value) }
      else none
    | none => none
  else none

/-- Method `AudioBuffer::clear(channel, 0, getNumSamples())`; no effect when the channel
does not exist. -/
def clearChannel (b : AudioBuffer) (channel : Nat) : AudioBuffer :=
  match b.channels[channel]? with
  | some ch => { b with channels := b.channels.set channel (fillZero ch) }
  | none => b

end AudioBuffer

/-- The data members of `DomeReverb` over the external filter state `σ`.  The two
`std::array<CombFilter, 8>` and the two `std::array<AllPassFilter, 4>` are lists. -/
structure DomeReverb (σ : Type) where
  sampleRate : ℚ
  domeAmount : ℚ
  stereoWidth : ℚ
  bassBoost : ℚ
  currentPreset : DomePreset
  wetGain : ℚ
  dryGain : ℚ
  combFiltersL : List CombFilter
  combFiltersR : List CombFilter
  allPassFiltersL : List AllPassFilter
  allPassFiltersR : List AllPassFilter
  preDelayBufferL : List ℚ
  preDelayBufferR : List ℚ
  preDelayWriteIndexL : Int
  preDelayWriteIndexR : Int
  preDelaySamplesL : Int
  preDelaySamplesR : Int
  lowPassFilterL : σ
  lowPassFilterR : σ
  lowShelfFilterL : σ
  lowShelfFilterR : σ
  preEQ_Band1L : σ
  preEQ_Band1R : σ
  preEQ_Band2L : σ
  preEQ_Band2R : σ
  preEQ_Band3L : σ
  preEQ_Band3R : σ
  preEQ_Band4L : σ
  preEQ_Band4R : σ
  preEQ_Band5L : σ
  preEQ_Band5R : σ
  preEQ_Band6L : σ
  preEQ_Band6R : σ
  preEQ_Band7L : σ
  preEQ_Band7R : σ
  deriving DecidableEq

namespace DomeReverb

variable {σ : Type}

/-- The default-constructed engine: every member has its default member initialiser. -/
def init (M : IIRFilterOps σ) : DomeReverb σ where
  sampleRate := 44100
  domeAmount := 1 / 2
  stereoWidth := 8 / 10
  bassBoost := 3 / 2
  currentPreset := DomePreset.Arena
  wetGain := 3 / 10
  dryGain := 85 / 100
  combFiltersL := List.replicate 8 {}
  combFiltersR := List.replicate 8 {}
  allPassFiltersL := List.replicate 4 {}
  allPassFiltersR := List.replicate 4 {}
  preDelayBufferL := []
  preDelayBufferR := []
  preDelayWriteIndexL := 0
  preDelayWriteIndexR := 0
  preDelaySamplesL := 0
  preDelaySamplesR := 0
  lowPassFilterL := M.default
  lowPassFilterR := M.default
  lowShelfFilterL := M.default
  lowShelfFilterR := M.default
  preEQ_Band1L := M.default
  preEQ_Band1R := M.default
  preEQ_Band2L := M.default
  preEQ_Band2R := M.default
  preEQ_Band3L := M.default
  preEQ_Band3R := M.default
  preEQ_Band4L := M.default
  preEQ_Band4R := M.default
  preEQ_Band5L := M.default
  preEQ_Band5R := M.default
  preEQ_Band6L := M.default
  preEQ_Band6R := M.default
  preEQ_Band7L := M.default
  preEQ_Band7R := M.default

/-- Table `combDelaysL` of `prepare`. -/
def combDelaysL : List ℚ :=
  [297 / 10, 371 / 10, 411 / 10, 437 / 10, 473 / 10, 539 / 10, 593 / 10, 617 / 10]

/-- Table `combDelaysR` of `prepare`. -/
def combDelaysR : List ℚ :=
  [311 / 10, 397 / 10, 433 / 10, 471 / 10, 517 / 10, 573 / 10, 631 / 10, 679 / 10]

/-- Table `allPassDelaysL` of `prepare`. -/
def allPassDelaysL : List ℚ :=
  [5, 67 / 10, 10, 124 / 10]

/-- Table `allPassDelaysR` of `prepare`. -/
def allPassDelaysR : List ℚ :=
  [53 / 10, 71 / 10, 113 / 10, 137 / 10]

/-- One round of a comb loop of `prepare`: `prepare`, `setDelayTime`, `setFeedback`,
`setDamping` on one filter. -/
def prepareComb (sampleRate : ℚ) (c : CombFilter) (delayMs : ℚ) : Option CombFilter := do
  let c ← c.prepare sampleRate 150
  pure (((c.setDelayTime delayMs).setFeedback (82 / 100)).setDamping (3 / 10))

/-- A comb loop of `prepare`: filter `i` is prepared with entry `i` of the delay table. -/
def prepareCombs (sampleRate : ℚ) : List CombFilter → List ℚ → Option (List CombFilter)
  | c :: cs, d :: ds => do
    let c ← prepareComb sampleRate c d
    let cs ← prepareCombs sampleRate cs ds
    pure (c :: cs)
  | _, _ => some []

/-- One round of an all-pass loop of `prepare`: `prepare`, `setDelayTime`,
`setCoefficient` on one filter. -/
def prepareAllPass (sampleRate : ℚ) (a : AllPassFilter) (delayMs : ℚ) :
    Option AllPassFilter := do
  let a ← a.prepare sampleRate 30
  pure ((a.setDelayTime delayMs).setCoefficient (1 / 2))

/-- An all-pass loop of `prepare`: filter `i` is prepared with entry `i` of the delay
table. -/
def prepareAllPasses (sampleRate : ℚ) :
    List AllPassFilter → List ℚ → Option (List AllPassFilter)
  | a :: as, d :: ds => do
    let a ← prepareAllPass sampleRate a d
    let as ← prepareAllPasses sampleRate as ds
    pure (a :: as)
  | _, _ => some []

/-- Method `DomeReverb::prepare(newSampleRate, samplesPerBlock)`. -/
def prepare (M : IIRFilterOps σ) (e : DomeReverb σ) (newSampleRate : ℚ)
    (_samplesPerBlock : Int) : Option (DomeReverb σ) := do
  let sampleRate := newSampleRate
  let combFiltersL ← prepareCombs sampleRate e.combFiltersL combDelaysL
  let combFiltersR ← prepareCombs sampleRate e.combFiltersR combDelaysR
  let allPassFiltersL ← prepareAllPasses sampleRate e.allPassFiltersL allPassDelaysL
  let allPassFiltersR ← prepareAllPasses sampleRate e.allPassFiltersR allPassDelaysR
  let maxPreDelaySamples := toInt (50 * sampleRate / 1000)
  let preDelayBufferL ← resize e.preDelayBufferL maxPreDelaySamples
  let preDelayBufferR ← resize e.preDelayBufferR maxPreDelaySamples
  pure { e with
    sampleRate := sampleRate
    combFiltersL := combFiltersL
    combFiltersR := combFiltersR
    allPassFiltersL := allPassFiltersL
    allPassFiltersR := allPassFiltersR
    preDelayBufferL := preDelayBufferL
    preDelayBufferR := preDelayBufferR
    preDelayWriteIndexL := 0
    preDelayWriteIndexR := 0
    lowPassFilterL :=
      M.setCoefficients e.lowPassFilterL (IIRCoefficients.makeLowPass sampleRate 8000)
    lowPassFilterR :=
      M.setCoefficients e.lowPassFilterR (IIRCoefficients.makeLowPass sampleRate 8000)
    lowShelfFilterL := M.setCoefficients e.lowShelfFilterL
      (IIRCoefficients.makeLowShelf sampleRate 200 (7 / 10) (3 / 2))
    lowShelfFilterR := M.setCoefficients e.lowShelfFilterR
      (IIRCoefficients.makeLowShelf sampleRate 200 (7 / 10) (3 / 2))
    preEQ_Band1L := M.setCoefficients e.preEQ_Band1L
      (IIRCoefficients.makeLowShelf sampleRate 50 (7 / 10) (112 / 100))
    preEQ_Band1R := M.setCoefficients e.preEQ_Band1R
      (IIRCoefficients.makeLowShelf sampleRate 50 (7 / 10) (112 / 100))
    preEQ_Band2L := M.setCoefficients e.preEQ_Band2L
      (IIRCoefficients.makePeakFilter sampleRate 100 (3 / 2) (89 / 100))
    preEQ_Band2R := M.setCoefficients e.preEQ_Band2R
      (IIRCoefficients.makePeakFilter sampleRate 100 (3 / 2) (89 / 100))
    preEQ_Band3L := M.setCoefficients e.preEQ_Band3L
      (IIRCoefficients.makePeakFilter sampleRate 200 1 (71 / 100))
    preEQ_Band3R := M.setCoefficients e.preEQ_Band3R
      (IIRCoefficients.makePeakFilter sampleRate 200 1 (71 / 100))
    preEQ_Band4L := M.setCoefficients e.preEQ_Band4L
      (IIRCoefficients.makePeakFilter sampleRate 400 (12 / 10) (63 / 100))
    preEQ_Band4R := M.setCoefficients e.preEQ_Band4R
      (IIRCoefficients.makePeakFilter sampleRate 400 (12 / 10) (63 / 100))
    preEQ_Band5L := M.setCoefficients e.preEQ_Band5L
      (IIRCoefficients.makePeakFilter sampleRate 1000 1 (126 / 100))
    preEQ_Band5R := M.setCoefficients e.preEQ_Band5R
      (IIRCoefficients.makePeakFilter sampleRate 1000 1 (126 / 100))
    preEQ_Band6L := M.setCoefficients e.preEQ_Band6L
      (IIRCoefficients.makePeakFilter sampleRate 4000 (3 / 2) 2)
    preEQ_Band6R := M.setCoefficients e.preEQ_Band6R
      (IIRCoefficients.makePeakFilter sampleRate 4000 (3 / 2) 2)
    preEQ_Band7L := M.setCoefficients e.preEQ_Band7L
      (IIRCoefficients.makeLowPassQ sampleRate 10000 (1 / 2))
    preEQ_Band7R := M.setCoefficients e.preEQ_Band7R
      (IIRCoefficients.makeLowPassQ sampleRate 10000 (1 / 2)) }

/-- Method `DomeReverb::updateParameters()`.  In
`static_cast<int>(domeAmount * 25.0f * sampleRate / 1000.0f)` the product of the two `float`
values is a `float`; the product with the `double` sample rate and the quotient are
`double` operations. -/
def updateParameters (M : IIRFilterOps σ) (e : DomeReverb σ) : DomeReverb σ :=
  let wetGain := e.domeAmount * (6 / 10)
  let dryGain := 1 - e.domeAmount * (3 / 10)
  let preDelaySamplesL :=
    toInt (roundDouble (roundDouble (roundFloat (e.domeAmount * 25) * e.sampleRate) / 1000))
  let preDelaySamplesR :=
    toInt (roundDouble (roundDouble (roundFloat (e.domeAmount * 30) * e.sampleRate) / 1000))
  let preDelaySamplesL :=
    if preDelaySamplesL ≥ (e.preDelayBufferL.length : Int) then
      (e.preDelayBufferL.length : Int) - 1
    else preDelaySamplesL
  let preDelaySamplesR :=
    if preDelaySamplesR ≥ (e.preDelayBufferR.length : Int) then
      (e.preDelayBufferR.length : Int) - 1
    else preDelaySamplesR
  let feedback := 75 / 100 + e.domeAmount * (12 / 100)
  let damping := 15 / 100 + e.domeAmount * (35 / 100)
  let cutoff := 10000 - e.domeAmount * 5000
  { e with
    wetGain := wetGain
    dryGain := dryGain
    preDelaySamplesL := preDelaySamplesL
    preDelaySamplesR := preDelaySamplesR
    combFiltersL := e.combFiltersL.map fun comb => (comb.setFeedback feedback).setDamping damping
    combFiltersR := e.combFiltersR.map fun comb => (comb.setFeedback feedback).setDamping damping
    lowPassFilterL :=
      M.setCoefficients e.lowPassFilterL (IIRCoefficients.makeLowPass e.sampleRate cutoff)
    lowPassFilterR :=
      M.setCoefficients e.lowPassFilterR (IIRCoefficients.makeLowPass e.sampleRate cutoff)
    lowShelfFilterL := M.setCoefficients e.lowShelfFilterL
      (IIRCoefficients.makeLowShelf e.sampleRate 200 (7 / 10) e.bassBoost)
    lowShelfFilterR := M.setCoefficients e.lowShelfFilterR
      (IIRCoefficients.makeLowShelf e.sampleRate 200 (7 / 10) e.bassBoost) }

/-- Method `DomeReverb::setDomeAmount(amount)`. -/
def setDomeAmount (M : IIRFilterOps σ) (e : DomeReverb σ) (amount : ℚ) : DomeReverb σ :=
  updateParameters M { e with domeAmount := clamp amount 0 1 }

/-- Method `DomeReverb::getDomeAmount()`. -/
def getDomeAmount (e : DomeReverb σ) : ℚ :=
  e.domeAmount

/-- Method `DomeReverb::setPreset(preset)`. -/
def setPreset (M : IIRFilterOps σ) (e : DomeReverb σ) (preset : DomePreset) : DomeReverb σ :=
  let e := { e with currentPreset := preset }
  let e :=
    match preset with
    | DomePreset.Arena =>
      { e with domeAmount := 6 / 10, stereoWidth := 8 / 10, bassBoost := 3 / 2 }
    | DomePreset.Stadium =>
      { e with domeAmount := 8 / 10, stereoWidth := 1, bassBoost := 18 / 10 }
    | DomePreset.Hall =>
      { e with domeAmount := 4 / 10, stereoWidth := 6 / 10, bassBoost := 12 / 10 }
    | DomePreset.Club =>
      { e with domeAmount := 25 / 100, stereoWidth := 5 / 10, bassBoost := 2 }
  updateParameters M e

/-- Method `DomeReverb::getPreset()`. -/
def getPreset (e : DomeReverb σ) : DomePreset :=
  e.currentPreset

/-- Method `DomeReverb::processPreDelay(input, buffer, writeIndex, delaySamples)`: the
returned sample, and the buffer and write index it leaves behind (both are passed by
reference). -/
def processPreDelay (input : ℚ) (buffer : List ℚ) (writeIndex : Int) (delaySamples : Int) :
    Option (ℚ × List ℚ × Int) :=
  if delaySamples = 0 then some (input, buffer, writeIndex)
  else do
    let readIndex := writeIndex - delaySamples
    let readIndex := if readIndex < 0 then readIndex + (buffer.length : Int) else readIndex
    let delayed ← readAt buffer readIndex
    let buffer ← writeAt buffer writeIndex input
    let writeIndex := writeIndex + 1
    let writeIndex := if writeIndex ≥ (buffer.length : Int) then 0 else writeIndex
    pure (delayed, buffer, writeIndex)

/-- The comb loop of `process` on one channel: every filter of the bank processes the
same input, the outputs are added to `acc`.  (The source runs the left and the right bank
in one loop; the two banks share no state.) -/
def processCombs (input : ℚ) : List CombFilter → ℚ → Option (List CombFilter × ℚ)
  | [], acc => some ([], acc)
  | c :: cs, acc => do
    let (c, out) ← c.process input
    let (cs, acc) ← processCombs input cs (acc + out)
    pure (c :: cs, acc)

/-- The all-pass loop of `process` on one channel: the filters are run in series. -/
def processAllPasses : List AllPassFilter → ℚ → Option (List AllPassFilter × ℚ)
  | [], x => some ([], x)
  | a :: as, x => do
    let (a, out) ← a.process x
    let (as, out) ← processAllPasses as out
    pure (a :: as, out)

/-- The body of the sample loop of `process` from the pre-EQ to the low-shelf filters
(lines 228 to 294): the new engine state and the pair `filteredL`, `filteredR` that enters
the stereo width stage.  A call of `processSingleSampleRaw` yields the pair of the new
filter state and the output sample. -/
def filteredSignal (M : IIRFilterOps σ) (e : DomeReverb σ) (inputL inputR : ℚ) :
    Option (DomeReverb σ × ℚ × ℚ) := do
  let band1L := M.processSingleSampleRaw e.preEQ_Band1L inputL
  let band1R := M.processSingleSampleRaw e.preEQ_Band1R inputR
  let band2L := M.processSingleSampleRaw e.preEQ_Band2L band1L.2
  let band2R := M.processSingleSampleRaw e.preEQ_Band2R band1R.2
  let band3L := M.processSingleSampleRaw e.preEQ_Band3L band2L.2
  let band3R := M.processSingleSampleRaw e.preEQ_Band3R band2R.2
  let band4L := M.processSingleSampleRaw e.preEQ_Band4L band3L.2
  let band4R := M.processSingleSampleRaw e.preEQ_Band4R band3R.2
  let band5L := M.processSingleSampleRaw e.preEQ_Band5L band4L.2
  let band5R := M.processSingleSampleRaw e.preEQ_Band5R band4R.2
  let band6L := M.processSingleSampleRaw e.preEQ_Band6L band5L.2
  let band6R := M.processSingleSampleRaw e.preEQ_Band6R band5R.2
  let band7L := M.processSingleSampleRaw e.preEQ_Band7L band6L.2
  let band7R := M.processSingleSampleRaw e.preEQ_Band7R band6R.2
  let eqL := band7L.2
  let eqR := band7R.2
  let (preDelayedL, preDelayBufferL, preDelayWriteIndexL) ←
    processPreDelay eqL e.preDelayBufferL e.preDelayWriteIndexL e.preDelaySamplesL
  let (preDelayedR, preDelayBufferR, preDelayWriteIndexR) ←
    processPreDelay eqR e.preDelayBufferR e.preDelayWriteIndexR e.preDelaySamplesR
  let (combFiltersL, combOutL) ← processCombs preDelayedL e.combFiltersL 0
  let (combFiltersR, combOutR) ← processCombs preDelayedR e.combFiltersR 0
  let combOutL := combOutL * (1 / 8)
  let combOutR := combOutR * (1 / 8)
  let crossFeedAmount : ℚ := 15 / 100
  let tempL := combOutL + combOutR * crossFeedAmount
  let tempR := combOutR + combOutL * crossFeedAmount
  let (allPassFiltersL, combOutL) ← processAllPasses e.allPassFiltersL tempL
  let (allPassFiltersR, combOutR) ← processAllPasses e.allPassFiltersR tempR
  let lowPassL := M.processSingleSampleRaw e.lowPassFilterL combOutL
  let lowPassR := M.processSingleSampleRaw e.lowPassFilterR combOutR
  let lowShelfL := M.processSingleSampleRaw e.lowShelfFilterL lowPassL.2
  let lowShelfR := M.processSingleSampleRaw e.lowShelfFilterR lowPassR.2
  let filteredL := lowShelfL.2
  let filteredR := lowShelfR.2
  pure ({ e with
    preEQ_Band1L := band1L.1, preEQ_Band1R := band1R.1
    preEQ_Band2L := band2L.1, preEQ_Band2R := band2R.1
    preEQ_Band3L := band3L.1, preEQ_Band3R := band3R.1
    preEQ_Band4L := band4L.1, preEQ_Band4R := band4R.1
    preEQ_Band5L := band5L.1, preEQ_Band5R := band5R.1
    preEQ_Band6L := band6L.1, preEQ_Band6R := band6R.1
    preEQ_Band7L := band7L.1, preEQ_Band7R := band7R.1
    preDelayBufferL := preDelayBufferL, preDelayWriteIndexL := preDelayWriteIndexL
    preDelayBufferR := preDelayBufferR, preDelayWriteIndexR := preDelayWriteIndexR
    combFiltersL := combFiltersL, combFiltersR := combFiltersR
    allPassFiltersL := allPassFiltersL, allPassFiltersR := allPassFiltersR
    lowPassFilterL := lowPassL.1, lowPassFilterR := lowPassR.1
    lowShelfFilterL := lowShelfL.1, lowShelfFilterR := lowShelfR.1 },
    filteredL, filteredR)

/-- The stereo width stage of the sample loop of `process` (lines 296 to 300): the pair
`filteredL`, `filteredR` after the mid/side scaling. -/
def stereoWidthStage (filteredL filteredR stereoWidth : ℚ) : ℚ × ℚ :=
  let mid := (filteredL + filteredR) * (1 / 2)
  let side := (filteredL - filteredR) * (1 / 2) * stereoWidth
  (mid + side, mid - side)

/-- The body of the sample loop of `process` from the pre-EQ to the stereo width stage
(lines 228 to 300): the new engine state and the pair `filteredL`, `filteredR` that enters
the wet/dry mix. -/
def wetSignal (M : IIRFilterOps σ) (e : DomeReverb σ) (inputL inputR : ℚ) :
    Option (DomeReverb σ × ℚ × ℚ) :=
  (filteredSignal M e inputL inputR).map fun r =>
    (r.1, (stereoWidthStage r.2.1 r.2.2 e.stereoWidth).1,
      (stereoWidthStage r.2.1 r.2.2 e.stereoWidth).2)

/-- One round of the sample loop of `process`: the inputs are read from the buffer, the
wet signal is computed, and the wet/dry mix is written back in place. -/
def processSample (M : IIRFilterOps σ) (e : DomeReverb σ) (buffer : AudioBuffer)
    (sample : Nat) : Option (DomeReverb σ × AudioBuffer) := do
  let numChannels := buffer.getNumChannels
  let inputL ← buffer.getSample 0 sample
  let inputR ← if numChannels > 1 then buffer.getSample 1 sample else some inputL
  let (e, filteredL, filteredR) ← wetSignal M e inputL inputR
  let wetL := filteredL * e.wetGain
  let wetR := filteredR * e.wetGain
  let dryL := inputL * e.dryGain
  let dryR := inputR * e.dryGain
  let buffer ← buffer.setSample 0 sample (dryL + wetL)
  let buffer ← if numChannels > 1 then buffer.setSample 1 sample (dryR + wetR) else some buffer
  pure (e, buffer)

/-- The sample loop of `process`: `count` rounds starting at index `sample`. -/
def processLoop (M : IIRFilterOps σ) :
    Nat → Nat → DomeReverb σ → AudioBuffer → Option (DomeReverb σ × AudioBuffer)
  | 0, _, e, buffer => some (e, buffer)
  | count + 1, sample, e, buffer => do
    let (e, buffer) ← processSample M e buffer sample
    processLoop M count (sample + 1) e buffer

/-- Method `DomeReverb::process(buffer)`. -/
def process (M : IIRFilterOps σ) (e : DomeReverb σ) (buffer : AudioBuffer) :
    Option (DomeReverb σ × AudioBuffer) :=
  if buffer.getNumChannels = 0 then some (e, buffer)
  else processLoop M buffer.numSamples 0 e buffer

/-- Method `DomeReverb::clear()`. -/
def clear (M : IIRFilterOps σ) (e : DomeReverb σ) : DomeReverb σ :=
  { e with
    combFiltersL := e.combFiltersL.map CombFilter.clear
    combFiltersR := e.combFiltersR.map CombFilter.clear
    allPassFiltersL := e.allPassFiltersL.map AllPassFilter.clear
    allPassFiltersR := e.allPassFiltersR.map AllPassFilter.clear
    preDelayBufferL := fillZero e.preDelayBufferL
    preDelayBufferR := fillZero e.preDelayBufferR
    lowPassFilterL := M.reset e.lowPassFilterL
    lowPassFilterR := M.reset e.lowPassFilterR
    lowShelfFilterL := M.reset e.lowShelfFilterL
    lowShelfFilterR := M.reset e.lowShelfFilterR }

end DomeReverb

/-! ## PluginProcessor.cpp -/

/-- The state of `DomeLiveSimulatorAudioProcessor` that the audio callbacks use: the raw
values of the two host parameters (`domeAmount`, a float, and `preset`, the index of one of
the four choices), the channel counts of the buses, the engine and `currentPresetIndex`. -/
structure DomeLiveSimulatorAudioProcessor (σ : Type) where
  domeAmountParameter : ℚ
  presetParameter : Fin 4
  totalNumInputChannels : Nat
  totalNumOutputChannels : Nat
  domeReverb : DomeReverb σ
  currentPresetIndex : Int

/-- Conversion `static_cast<DomePreset>(presetIndex)` of a choice index. -/
def presetOfIndex : Fin 4 → DomePreset
  | 0 => DomePreset.Arena
  | 1 => DomePreset.Stadium
  | 2 => DomePreset.Hall
  | 3 => DomePreset.Club

namespace DomeLiveSimulatorAudioProcessor

variable {σ : Type}

/-- Method `prepareToPlay(sampleRate, samplesPerBlock)`. -/
def prepareToPlay (M : IIRFilterOps σ) (p : DomeLiveSimulatorAudioProcessor σ)
    (sampleRate : ℚ) (samplesPerBlock : Int) : Option (DomeLiveSimulatorAudioProcessor σ) := do
  let domeReverb ← DomeReverb.prepare M p.domeReverb sampleRate samplesPerBlock
  let domeAmount := p.domeAmountParameter
  pure { p with domeReverb := DomeReverb.setDomeAmount M domeReverb domeAmount }

/-- Lines 86 to 95 of `processBlock`: the preset parameter is applied when it differs from
`currentPresetIndex`, then the dome amount parameter is applied. -/
def applyParameters (M : IIRFilterOps σ) (p : DomeLiveSimulatorAudioProcessor σ) :
    DomeLiveSimulatorAudioProcessor σ :=
  let presetIndex : Int := (p.presetParameter.val : Int)
  let p :=
    if presetIndex ≠ p.currentPresetIndex then
      { p with
        currentPresetIndex := presetIndex
        domeReverb := DomeReverb.setPreset M p.domeReverb (presetOfIndex p.presetParameter) }
    else p
  let domeAmount := p.domeAmountParameter
  { p with domeReverb := DomeReverb.setDomeAmount M p.domeReverb domeAmount }

/-- Method `processBlock(buffer, midiMessages)`. -/
def processBlock (M : IIRFilterOps σ) (p : DomeLiveSimulatorAudioProcessor σ)
    (buffer : AudioBuffer) : Option (DomeLiveSimulatorAudioProcessor σ × AudioBuffer) := do
  let buffer :=
    (List.range' p.totalNumInputChannels
      (p.totalNumOutputChannels - p.totalNumInputChannels)).foldl
      AudioBuffer.clearChannel buffer
  let p := applyParameters M p
  let (domeReverb, buffer) ← DomeReverb.process M p.domeReverb buffer
  pure ({ p with domeReverb := domeReverb }, buffer)

end DomeLiveSimulatorAudioProcessor

/-! ## A concrete instance of the external biquad -/

/-- A biquad in the shape of `juce::IIRFilter`: five coefficients and the two memory cells
`v1`, `v2` of the transposed direct form II. -/
structure Biquad where
  c0 : ℚ := 0
  c1 : ℚ := 0
  c2 : ℚ := 0
  c3 : ℚ := 0
  c4 : ℚ := 0
  v1 : ℚ := 0
  v2 : ℚ := 0
  deriving DecidableEq

/-- The operations of `Biquad` for a given coefficient design: `processSingleSampleRaw`
computes `out = c0*in + v1`, `v1 = c1*in - c3*out + v2`, `v2 = c2*in - c4*out`;
`reset` zeroes `v1` and `v2`. -/
def biquadOps (design : IIRCoefficients → ℚ × ℚ × ℚ × ℚ × ℚ) : IIRFilterOps Biquad where
  default := {}
  setCoefficients f c :=
    let d := design c
    { f with c0 := d.1, c1 := d.2.1, c2 := d.2.2.1, c3 := d.2.2.2.1, c4 := d.2.2.2.2 }
  processSingleSampleRaw f x :=
    let out := f.c0 * x + f.v1
    ({ f with v1 := f.c1 * x - f.c3 * out + f.v2, v2 := f.c2 * x - f.c4 * out }, out)
  reset f := { f with v1 := 0, v2 := 0 }

/-- A rational coefficient design used to run the engine on concrete numbers: every
request yields the two-point average `out[n] = (in[n] + in[n-1]) / 2`. -/
def averagingDesign : IIRCoefficients → ℚ × ℚ × ℚ × ℚ × ℚ :=
  fun _ => (1 / 2, 1 / 2, 0, 0, 0)

/-- The external filter instantiated with the two-point average. -/
def averagingOps : IIRFilterOps Biquad :=
  biquadOps averagingDesign

/-! ## Well-formed states -/

/-- A comb filter whose indices are in range: the write index lies in the buffer, the delay
is between `1` and `capacity - 1`, and the capacity fits an `int`. -/
def CombFilter.Valid (f : CombFilter) : Prop :=
  0 ≤ f.writeIndex ∧ f.writeIndex < (f.buffer.length : Int) ∧
    1 ≤ f.delaySamples ∧ f.delaySamples ≤ (f.buffer.length : Int) - 1 ∧
    f.buffer.length < 2 ^ 31

/-- An all-pass filter whose indices are in range. -/
def AllPassFilter.Valid (f : AllPassFilter) : Prop :=
  0 ≤ f.writeIndex ∧ f.writeIndex < (f.buffer.length : Int) ∧
    1 ≤ f.delaySamples ∧ f.delaySamples ≤ (f.buffer.length : Int) - 1 ∧
    f.buffer.length < 2 ^ 31

/-- A prepared engine: a positive sample rate, 8 + 8 valid comb filters, 4 + 4 valid
all-pass filters, and two pre-delay buffers of `toInt (50 * sampleRate / 1000)` samples
(at least one) whose write indices are in range.  The contents of the buffers and of the
filter memories, the preset and the dome amount are arbitrary. -/
structure DomeReverb.Prepared {σ : Type} (e : DomeReverb σ) : Prop where
  sampleRate_pos : 0 < e.sampleRate
  combsL_length : e.combFiltersL.length = 8
  combsR_length : e.combFiltersR.length = 8
  allPassesL_length : e.allPassFiltersL.length = 4
  allPassesR_length : e.allPassFiltersR.length = 4
  combsL_valid : ∀ c ∈ e.combFiltersL, c.Valid
  combsR_valid : ∀ c ∈ e.combFiltersR, c.Valid
  allPassesL_valid : ∀ a ∈ e.allPassFiltersL, a.Valid
  allPassesR_valid : ∀ a ∈ e.allPassFiltersR, a.Valid
  preDelayL_length : (e.preDelayBufferL.length : Int) = toInt (50 * e.sampleRate / 1000)
  preDelayR_length : (e.preDelayBufferR.length : Int) = toInt (50 * e.sampleRate / 1000)
  preDelayL_pos : 0 < e.preDelayBufferL.length
  preDelayR_pos : 0 < e.preDelayBufferR.length
  preDelayL_index : 0 ≤ e.preDelayWriteIndexL ∧
    e.preDelayWriteIndexL < (e.preDelayBufferL.length : Int)
  preDelayR_index : 0 ≤ e.preDelayWriteIndexR ∧
    e.preDelayWriteIndexR < (e.preDelayBufferR.length : Int)

/-- Successive calls of `AllPassFilter::process`, one per sample of the list: the final
state and the returned samples in order. -/
def AllPassFilter.processAll : AllPassFilter → List ℚ → Option (AllPassFilter × List ℚ)
  | f, [] => some (f, [])
  | f, x :: xs => do
    let (f, y) ← f.process x
    let (f, ys) ← AllPassFilter.processAll f xs
    pure (f, y :: ys)

/-- An all-pass filter as the source builds it: default constructed (coefficient `0.5`),
then `prepare(1000, 2)` (a two-sample buffer of zeros) and `setDelayTime(1)` (a delay of
one sample). -/
def unitAllPass : Option AllPassFilter :=
  (AllPassFilter.prepare {} 1000 2).map fun f => f.setDelayTime 1

/-- The state of `unitAllPass` after `k` calls of `process` with the constant input `1`
(`other` is the value of the cell that the next call overwrites). -/
def unitAllPassAfter (k : Nat) (other : ℚ) : AllPassFilter :=
  if k % 2 = 0 then
    { buffer := [other, 2 - 2 * (1 / 2) ^ k], sampleRate := 1000, writeIndex := 0,
      delaySamples := 1, coefficient := 1 / 2 }
  else
    { buffer := [2 - 2 * (1 / 2) ^ k, other], sampleRate := 1000, writeIndex := 1,
      delaySamples := 1, coefficient := 1 / 2 }

/-! ## Reachable engine states -/

/-- The engine of the averaging biquad after `prepare(44100, 512)` on a default-constructed
engine. -/
def demoEngine : DomeReverb Biquad :=
  (DomeReverb.prepare averagingOps (DomeReverb.init averagingOps) 44100 512).getD
    (DomeReverb.init averagingOps)

/-- The engine states reached from a default-constructed engine by a successful `prepare`
(at any sample rate) followed by any sequence of `prepare`, `setDomeAmount` and
`setPreset`. -/
inductive DomeReverb.Reachable {σ : Type} (M : IIRFilterOps σ) : DomeReverb σ → Prop
  | prepare (sr : ℚ) (samplesPerBlock : Int) (e : DomeReverb σ) :
      DomeReverb.prepare M (DomeReverb.init M) sr samplesPerBlock = some e →
      DomeReverb.Reachable M e
  | prepareAgain (e₀ : DomeReverb σ) (sr : ℚ) (samplesPerBlock : Int) (e : DomeReverb σ) :
      DomeReverb.Reachable M e₀ →
      DomeReverb.prepare M e₀ sr samplesPerBlock = some e →
      DomeReverb.Reachable M e
  | setDomeAmount (e : DomeReverb σ) (amount : ℚ) :
      DomeReverb.Reachable M e → DomeReverb.Reachable M (DomeReverb.setDomeAmount M e amount)
  | setPreset (e : DomeReverb σ) (preset : DomePreset) :
      DomeReverb.Reachable M e → DomeReverb.Reachable M (DomeReverb.setPreset M e preset)

/-- The invariant of the derived comb coefficients: the engine has 8 + 8 comb and 4 + 4
all-pass filters, the dome amount lies in `[0, 1]`, and every comb filter holds either the
pair (feedback, damping) that `prepare` passes, `(0.82, 0.3)`, or the pair that
`updateParameters` passes for the current dome amount. -/
structure DomeReverb.CombInvariant {σ : Type} (e : DomeReverb σ) : Prop where
  combsL_length : e.combFiltersL.length = 8
  combsR_length : e.combFiltersR.length = 8
  allPassesL_length : e.allPassFiltersL.length = 4
  allPassesR_length : e.allPassFiltersR.length = 4
  domeAmount_range : 0 ≤ e.domeAmount ∧ e.domeAmount ≤ 1
  coefficients : ∀ c ∈ e.combFiltersL ++ e.combFiltersR,
    (c.feedback = 82 / 100 ∧ c.damping = 3 / 10) ∨
    (c.feedback = 75 / 100 + e.domeAmount * (12 / 100) ∧
      c.damping = 15 / 100 + e.domeAmount * (35 / 100))

/-- A pre-delay line that `processPreDelay` can run on: the delay is `0` (the line is
bypassed), or the write index lies in the buffer and the delay is between `1` and
`capacity - 1`. -/
def DomeReverb.PreDelayInBounds (buffer : List ℚ) (writeIndex delaySamples : Int) : Prop :=
  delaySamples = 0 ∨
    (0 ≤ writeIndex ∧ writeIndex < (buffer.length : Int) ∧
      1 ≤ delaySamples ∧ delaySamples ≤ (buffer.length : Int) - 1)

/-- An engine on which `process` stays inside every buffer: all comb and all-pass filters
are valid and both pre-delay lines are in bounds. -/
structure DomeReverb.InBounds {σ : Type} (e : DomeReverb σ) : Prop where
  combsL_valid : ∀ c ∈ e.combFiltersL, c.Valid
  combsR_valid : ∀ c ∈ e.combFiltersR, c.Valid
  allPassesL_valid : ∀ a ∈ e.allPassFiltersL, a.Valid
  allPassesR_valid : ∀ a ∈ e.allPassFiltersR, a.Valid
  preDelayL : DomeReverb.PreDelayInBounds e.preDelayBufferL e.preDelayWriteIndexL
    e.preDelaySamplesL
  preDelayR : DomeReverb.PreDelayInBounds e.preDelayBufferR e.preDelayWriteIndexR
    e.preDelaySamplesR

/-! ## A run through `clear` -/

/-- A fresh engine of the averaging biquad: default constructed, then `prepare(250, 512)`
and `setPreset(Arena)`. -/
def freshEngine : Option (DomeReverb Biquad) :=
  (DomeReverb.prepare averagingOps (DomeReverb.init averagingOps) 250 512).map
    fun e => DomeReverb.setPreset averagingOps e DomePreset.Arena

/-- The engine `freshEngine` after it has processed the one-sample mono block `[1]` and
`clear()` has been called. -/
def clearedEngine : Option (DomeReverb Biquad) :=
  (freshEngine.bind fun e =>
    DomeReverb.process averagingOps e { numSamples := 1, channels := [[1]] }).map
    fun r => DomeReverb.clear averagingOps r.1

/-- A mono block of `n` samples holding the unit impulse `1, 0, 0, ...`. -/
def impulseBlock (n : Nat) : AudioBuffer :=
  { numSamples := n, channels := [1 :: List.replicate (n - 1) 0] }

/-- Sample `k` of the output of `process` on the unit impulse of `n` samples. -/
def impulseResponse (e : Option (DomeReverb Biquad)) (n k : Nat) : Option ℚ :=
  (e.bind fun e => DomeReverb.process averagingOps e (impulseBlock n)).bind
    fun r => r.2.getSample 0 k

/-! ## Stages of the sample loop -/

/-- The delay memory that the parameter setters must leave alone: the comb filters keep
their number and, one by one, buffer, write index, `filterStore` and delay length; the
all-pass filters, the pre-delay buffers and the pre-delay write indices are equal. -/
def DomeReverb.SameDelayMemory {σ : Type} (e e' : DomeReverb σ) : Prop :=
  e'.combFiltersL.map (fun c => (c.buffer, c.writeIndex, c.filterStore, c.delaySamples)) =
    e.combFiltersL.map (fun c => (c.buffer, c.writeIndex, c.filterStore, c.delaySamples)) ∧
  e'.combFiltersR.map (fun c => (c.buffer, c.writeIndex, c.filterStore, c.delaySamples)) =
    e.combFiltersR.map (fun c => (c.buffer, c.writeIndex, c.filterStore, c.delaySamples)) ∧
  e'.allPassFiltersL = e.allPassFiltersL ∧
  e'.allPassFiltersR = e.allPassFiltersR ∧
  e'.preDelayBufferL = e.preDelayBufferL ∧
  e'.preDelayBufferR = e.preDelayBufferR ∧
  e'.preDelayWriteIndexL = e.preDelayWriteIndexL ∧
  e'.preDelayWriteIndexR = e.preDelayWriteIndexR

/-- Successive calls of `CombFilter::process`, one per sample of the list: the final state
and the returned samples in order. -/
def CombFilter.processAll : CombFilter → List ℚ → Option (CombFilter × List ℚ)
  | f, [] => some (f, [])
  | f, x :: xs => do
    let (f, y) ← f.process x
    let (f, ys) ← CombFilter.processAll f xs
    pure (f, y :: ys)

/-! ## Runs of the delay lines -/

/-- Successive calls of `processPreDelay` with a fixed delay, one per sample of the list:
the returned samples in order, and the buffer and write index left behind. -/
def DomeReverb.processPreDelayAll (delaySamples : Int) :
    List ℚ → List ℚ → Int → Option (List ℚ × List ℚ × Int)
  | [], buffer, writeIndex => some ([], buffer, writeIndex)
  | x :: xs, buffer, writeIndex => do
    let (y, buffer, writeIndex) ← DomeReverb.processPreDelay x buffer writeIndex delaySamples
    let (ys, buffer, writeIndex) ←
      DomeReverb.processPreDelayAll delaySamples xs buffer writeIndex
    pure (y :: ys, buffer, writeIndex)

/-- The contents of a circular buffer after `n` writes of the values `v 0, v 1, ...` into a
buffer of zeros: the cell `j + 1` places behind the write index holds the value written
`j + 1` writes ago, `v (n - 1 - j)`, or zero when fewer writes have happened. -/
def DelayLineHolds (buffer : List ℚ) (writeIndex : Int) (n : Nat) (v : Nat → ℚ) : Prop :=
  ∀ j : Nat, j < buffer.length →
    buffer[((writeIndex - 1 - (j : Int)) % (buffer.length : Int)).toNat]? =
      some (if j < n then v (n - 1 - j) else 0)

/-- The damped feedback-comb recurrence in the words of the claim, for the input sequence
`x`: the pair `(y n, s n)` with `y n = 0` for `n < d`,
`y n = x (n - d) + fb * s (n - d)` for `n ≥ d`, and
`s n = (1 - dp) * y n + dp * s (n - 1)`, where `s (-1) = 0`.  (For `d = 0`, which no delay
line has, `y n` is `0`.) -/
def combRecurrence (fb dp : ℚ) (d : Nat) (x : Nat → ℚ) (n : Nat) : ℚ × ℚ :=
  ((if _h : 0 < d ∧ d ≤ n then x (n - d) + fb * (combRecurrence fb dp d x (n - d)).2 else 0),
    (1 - dp) *
        (if _h : 0 < d ∧ d ≤ n then x (n - d) + fb * (combRecurrence fb dp d x (n - d)).2 else 0)
      + dp * (if _h : 0 < n then (combRecurrence fb dp d x (n - 1)).2 else 0))
termination_by n
decreasing_by all_goals omega

/-! ## A knob value at 48000 Hz -/

/-- The default-constructed engine after `prepare(48000, 512)`. -/
def knobEngine : Option (DomeReverb Biquad) :=
  DomeReverb.prepare averagingOps (DomeReverb.init averagingOps) 48000 512

/-! ## A run through two sample rates -/

/-- An engine of the averaging biquad that is prepared at 96000 Hz, set to the dome amount
`1`, and prepared again at 44100 Hz. -/
def repreparedEngine : Option (DomeReverb Biquad) :=
  ((DomeReverb.prepare averagingOps (DomeReverb.init averagingOps) 96000 512).map
    fun e => DomeReverb.setDomeAmount averagingOps e 1).bind
    fun e => DomeReverb.prepare averagingOps e 44100 512

/-! ## Index arithmetic -/

theorem toSizeT_of_nonneg {i : Int} (h0 : 0 ≤ i) (h : i < 2 ^ 64) : toSizeT i = i := by
  unfold toSizeT
  exact Int.emod_eq_of_lt h0 h

theorem geSize_eq_decide {i : Int} (size : Nat) (h0 : 0 ≤ i) (h : i < 2 ^ 64) :
    geSize i size = decide ((size : Int) ≤ i) := by
  unfold geSize
  rw [toSizeT_of_nonneg h0 h]

/-- The wrapped read position of the delay lines is `(w - d) mod n`. -/
theorem wrap_readIndex {w d n : Int} (hw0 : 0 ≤ w) (hw : w < n) (hd1 : 1 ≤ d)
    (hd : d ≤ n - 1) :
    (if w - d < 0 then w - d + n else w - d) = (w - d) % n := by
  split_ifs with h
  · rw [← Int.add_emod_self, Int.emod_eq_of_lt (by omega) (by omega)]
  · rw [Int.emod_eq_of_lt (by omega) (by omega)]

/-- The advanced write position of the delay lines is `(w + 1) mod n`. -/
theorem wrap_writeIndex {w n : Int} (hw0 : 0 ≤ w) (hw : w < n) :
    (if n ≤ w + 1 then 0 else w + 1) = (w + 1) % n := by
  split_ifs with h
  · have : w + 1 = n := by omega
    rw [this, Int.emod_self]
  · rw [Int.emod_eq_of_lt (by omega) (by omega)]

theorem emod_range {a n : Int} (hn : 0 < n) : 0 ≤ a % n ∧ a % n < n :=
  ⟨Int.emod_nonneg a (by omega), Int.emod_lt_of_pos a hn⟩

theorem readAt_of_lt (buffer : List ℚ) {i : Int} (h0 : 0 ≤ i) (h : i < buffer.length) :
    ∃ v, buffer[i.toNat]? = some v ∧ readAt buffer i = some v := by
  have hlt : i.toNat < buffer.length := by omega
  exact ⟨buffer[i.toNat], List.getElem?_eq_getElem hlt, by simp [readAt, h0, hlt]⟩

theorem writeAt_of_lt (buffer : List ℚ) {i : Int} (v : ℚ) (h0 : 0 ≤ i)
    (h : i < buffer.length) : writeAt buffer i v = some (buffer.set i.toNat v) := by
  have hlt : i.toNat < buffer.length := by omega
  simp [writeAt, h0, hlt]

/-! ## One step of the delay-line filters -/

/-- C1. One call of `CombFilter::process` on a state with capacity at least 2 (and
representable as an `int`), write index inside the buffer and delay between 1 and
capacity - 1: the sample `delayed` stored at position `(writeIndex - delaySamples) mod
capacity` of the old buffer is returned; `filterStore` becomes
`delayed * (1 - damping) + filterStore * damping`; the buffer changes only at the old
write index, which receives `input + newFilterStore * feedback`; the write index becomes
`(writeIndex + 1) mod capacity`. -/
theorem comb_process_step (f : CombFilter) (x : ℚ)
    (hcap : 2 ≤ f.buffer.length) (hint : f.buffer.length < 2 ^ 31)
    (hw0 : 0 ≤ f.writeIndex) (hw : f.writeIndex < (f.buffer.length : Int))
    (hd1 : 1 ≤ f.delaySamples) (hd : f.delaySamples ≤ (f.buffer.length : Int) - 1) :
    ∃ delayed : ℚ,
      f.buffer[((f.writeIndex - f.delaySamples) % (f.buffer.length : Int)).toNat]? =
        some delayed ∧
      f.process x = some
        ({ f with
            filterStore := delayed * (1 - f.damping) + f.filterStore * f.damping
            buffer := f.buffer.set f.writeIndex.toNat
              (x + (delayed * (1 - f.damping) + f.filterStore * f.damping) * f.feedback)
            writeIndex := (f.writeIndex + 1) % (f.buffer.length : Int) },
          delayed) := by
  have hr := emod_range (a := f.writeIndex - f.delaySamples) (n := (f.buffer.length : Int))
    (by omega)
  obtain ⟨v, hv, hread⟩ := readAt_of_lt f.buffer hr.1 hr.2
  refine ⟨v, hv, ?_⟩
  have hge : geSize (f.writeIndex + 1) f.buffer.length
      = decide ((f.buffer.length : Int) ≤ f.writeIndex + 1) :=
    geSize_eq_decide _ (by omega) (by omega)
  simp only [CombFilter.process, wrap_readIndex hw0 hw hd1 hd, hread,
    writeAt_of_lt f.buffer _ hw0 hw, Option.bind_eq_bind, Option.some_bind, Option.pure_def,
    List.length_set, hge, decide_eq_true_eq, wrap_writeIndex hw0 hw]

/-- The statement of `comb_process_step` on a three-sample buffer. -/
theorem comb_process_step_witness :
    ∃ delayed : ℚ,
      [1, 2, 3][(((0 : Int) - 1) % ((3 : Nat) : Int)).toNat]? = some delayed ∧
      CombFilter.process
        { buffer := [1, 2, 3], sampleRate := 44100, writeIndex := 0, delaySamples := 1,
          feedback := 7 / 10, damping := 1 / 2, filterStore := 0 } 5 = some
        ({ buffer := [1, 2, 3].set (0 : Int).toNat
              (5 + (delayed * (1 - 1 / 2) + 0 * (1 / 2)) * (7 / 10)),
            sampleRate := 44100, writeIndex := ((0 : Int) + 1) % ((3 : Nat) : Int),
            delaySamples := 1, feedback := 7 / 10, damping := 1 / 2,
            filterStore := delayed * (1 - 1 / 2) + 0 * (1 / 2) }, delayed) :=
  comb_process_step
    { buffer := [1, 2, 3], sampleRate := 44100, writeIndex := 0, delaySamples := 1,
      feedback := 7 / 10, damping := 1 / 2, filterStore := 0 } 5
    (by decide) (by decide) (by decide) (by decide) (by decide) (by decide)

/-- C2. One call of `AllPassFilter::process` on a state with capacity at least 2 (and
representable as an `int`), write index inside the buffer and delay between 1 and
capacity - 1: with `delayed` the sample at position `(writeIndex - delaySamples) mod
capacity` of the old buffer, the call returns `-coefficient * input + delayed`; the buffer
changes only at the old write index, which receives `input + coefficient * delayed`; the
write index becomes `(writeIndex + 1) mod capacity`. -/
theorem allpass_process_step (f : AllPassFilter) (x : ℚ)
    (hcap : 2 ≤ f.buffer.length) (hint : f.buffer.length < 2 ^ 31)
    (hw0 : 0 ≤ f.writeIndex) (hw : f.writeIndex < (f.buffer.length : Int))
    (hd1 : 1 ≤ f.delaySamples) (hd : f.delaySamples ≤ (f.buffer.length : Int) - 1) :
    ∃ delayed : ℚ,
      f.buffer[((f.writeIndex - f.delaySamples) % (f.buffer.length : Int)).toNat]? =
        some delayed ∧
      f.process x = some
        ({ f with
            buffer := f.buffer.set f.writeIndex.toNat (x + f.coefficient * delayed)
            writeIndex := (f.writeIndex + 1) % (f.buffer.length : Int) },
          -f.coefficient * x + delayed) := by
  have hr := emod_range (a := f.writeIndex - f.delaySamples) (n := (f.buffer.length : Int))
    (by omega)
  obtain ⟨v, hv, hread⟩ := readAt_of_lt f.buffer hr.1 hr.2
  refine ⟨v, hv, ?_⟩
  have hge : geSize (f.writeIndex + 1) f.buffer.length
      = decide ((f.buffer.length : Int) ≤ f.writeIndex + 1) :=
    geSize_eq_decide _ (by omega) (by omega)
  simp only [AllPassFilter.process, wrap_readIndex hw0 hw hd1 hd, hread,
    writeAt_of_lt f.buffer _ hw0 hw, Option.bind_eq_bind, Option.some_bind, Option.pure_def,
    List.length_set, hge, decide_eq_true_eq, wrap_writeIndex hw0 hw]

/-- The statement of `allpass_process_step` on a three-sample buffer. -/
theorem allpass_process_step_witness :
    ∃ delayed : ℚ,
      [1, 2, 3][(((2 : Int) - 2) % ((3 : Nat) : Int)).toNat]? = some delayed ∧
      AllPassFilter.process
        { buffer := [1, 2, 3], sampleRate := 44100, writeIndex := 2, delaySamples := 2,
          coefficient := 1 / 2 } 5 = some
        ({ buffer := [1, 2, 3].set (2 : Int).toNat (5 + 1 / 2 * delayed),
            sampleRate := 44100, writeIndex := ((2 : Int) + 1) % ((3 : Nat) : Int),
            delaySamples := 2, coefficient := 1 / 2 }, -(1 / 2) * 5 + delayed) :=
  allpass_process_step
    { buffer := [1, 2, 3], sampleRate := 44100, writeIndex := 2, delaySamples := 2,
      coefficient := 1 / 2 } 5
    (by decide) (by decide) (by decide) (by decide) (by decide) (by decide)

/-! ## The all-pass filter on a constant input -/

theorem unitAllPass_eq : unitAllPass = some (unitAllPassAfter 0 0) := by
  simp [unitAllPass, AllPassFilter.prepare, resize, toInt, AllPassFilter.setDelayTime,
    geSize, toSizeT, unitAllPassAfter]

theorem unitAllPassAfter_process (k : Nat) (o : ℚ) :
    ∃ o', (unitAllPassAfter k o).process 1 =
      some (unitAllPassAfter (k + 1) o', 3 / 2 - 2 * (1 / 2) ^ k) := by
  refine ⟨2 - 2 * (1 / 2) ^ k, ?_⟩
  rcases Nat.mod_two_eq_zero_or_one k with h | h
  · have h1 : (k + 1) % 2 = 1 := by omega
    simp [unitAllPassAfter, h, h1, AllPassFilter.process, readAt, writeAt, geSize, toSizeT]
    constructor <;> ring
  · have h1 : (k + 1) % 2 = 0 := by omega
    simp [unitAllPassAfter, h, h1, AllPassFilter.process, readAt, writeAt, geSize, toSizeT]
    constructor <;> ring

theorem unitAllPassAfter_processAll (n : Nat) :
    ∀ (k : Nat) (o : ℚ), ∃ o', (unitAllPassAfter k o).processAll (List.replicate n 1) =
      some (unitAllPassAfter (k + n) o',
        (List.range n).map fun j => 3 / 2 - 2 * (1 / 2) ^ (k + j)) := by
  induction n with
  | zero => intro k o; exact ⟨o, by simp [AllPassFilter.processAll]⟩
  | succ n ih =>
    intro k o
    obtain ⟨o₁, h₁⟩ := unitAllPassAfter_process k o
    obtain ⟨o₂, h₂⟩ := ih (k + 1) o₁
    refine ⟨o₂, ?_⟩
    simp only [List.replicate_succ, AllPassFilter.processAll, h₁, h₂, Option.bind_eq_bind,
      Option.some_bind, Option.pure_def, List.range_succ_eq_map, List.map_cons, List.map_map]
    have hk : k + 1 + n = k + (n + 1) := by omega
    rw [hk]
    congr 3
    simp
    intro j _
    omega

/-- C3 (the code departs from it). The all-pass filter built by the source with its default
coefficient `0.5`, a delay of one sample and a cleared two-sample buffer, driven by the
constant input `1`: every run of `n` calls of `process` succeeds and call number `j`
returns `3/2 - 2 * (1/2)^j`.  The output therefore tends to `3/2`, not to a value of
magnitude `1`: the gain at frequency zero is `(1 - g + g^2) / (1 - g) = 3/2`. -/
theorem allpass_constant_input_gain (n : Nat) :
    ∃ f₀ f ys, unitAllPass = some f₀ ∧
      f₀.processAll (List.replicate n 1) = some (f, ys) ∧
      ys = (List.range n).map (fun j => (3 / 2 : ℚ) - 2 * (1 / 2) ^ j) ∧
      ∀ j, 3 ≤ j → j < n → ∃ y, ys[j]? = some y ∧ 5 / 4 ≤ y ∧ y < 3 / 2 := by
  obtain ⟨o, h⟩ := unitAllPassAfter_processAll n 0 0
  refine ⟨_, _, _, unitAllPass_eq, h, by simp, ?_⟩
  intro j hj3 hjn
  refine ⟨3 / 2 - 2 * (1 / 2) ^ j, by simp [hjn], ?_, ?_⟩
  · have h3 : ((1 : ℚ) / 2) ^ j ≤ (1 / 2) ^ 3 :=
      pow_le_pow_of_le_one (by norm_num) (by norm_num) hj3
    norm_num at h3 ⊢
    linarith
  · have : (0 : ℚ) < (1 / 2) ^ j := by positivity
    linarith

/-! ## Preparing the delay lines -/

theorem toInt_of_nonneg {x : ℚ} (h : 0 ≤ x) : toInt x = Int.floor x := by
  simp [toInt, h]

theorem toInt_nonneg {x : ℚ} (h : 0 ≤ x) : 0 ≤ toInt x := by
  rw [toInt_of_nonneg h]
  exact Int.floor_nonneg.mpr h

theorem resize_of_nonneg (buffer : List ℚ) {n : Int} (h : 0 ≤ n) :
    resize buffer n =
      some (buffer.take n.toNat ++ List.replicate (n.toNat - buffer.length) 0) := by
  simp [resize, h]

theorem length_take_append_replicate (buffer : List ℚ) (n : Nat) :
    (buffer.take n ++ List.replicate (n - buffer.length) 0).length = n := by
  simp only [List.length_append, List.length_take, List.length_replicate]
  omega

/-- Method `setDelayTime` leaves a delay between `1` and `capacity - 1` when the capacity is
at least 2 and the requested delay is a non-negative `int`. -/
theorem clampDelay_range {d : Int} {len : Nat} (hd0 : 0 ≤ d) (hd : d < 2 ^ 64)
    (hlen : 2 ≤ len) :
    1 ≤ (if (if geSize d len then (len : Int) - 1 else d) < 1 then 1
          else (if geSize d len then (len : Int) - 1 else d)) ∧
      (if (if geSize d len then (len : Int) - 1 else d) < 1 then 1
          else (if geSize d len then (len : Int) - 1 else d)) ≤ (len : Int) - 1 := by
  rw [geSize_eq_decide len hd0 hd]
  by_cases h : (len : Int) ≤ d
  · simp only [h, decide_True, if_true]
    split_ifs <;> omega
  · simp only [h, decide_False]
    split_ifs <;> omega

theorem CombFilter.comb_prepare_eq (f : CombFilter) {sr maxMs : ℚ} (h : 0 ≤ maxMs * sr / 1000) :
    f.prepare sr maxMs = some
      { f with
        sampleRate := sr
        buffer := f.buffer.take (toInt (maxMs * sr / 1000)).toNat ++
          List.replicate ((toInt (maxMs * sr / 1000)).toNat - f.buffer.length) 0
        writeIndex := 0 } := by
  simp only [CombFilter.prepare, resize_of_nonneg _ (toInt_nonneg h), Option.bind_eq_bind,
    Option.some_bind, Option.pure_def]

theorem CombFilter.comb_prepare_setDelayTime_valid (f : CombFilter) (sr maxMs delayMs : ℚ)
    (hsr : 0 ≤ sr) (hd0 : 0 ≤ delayMs) (hdm : delayMs ≤ maxMs)
    (hlo : 2 ≤ maxMs * sr / 1000) (hhi : maxMs * sr / 1000 < 2 ^ 31) :
    ∃ g, f.prepare sr maxMs = some g ∧ (g.setDelayTime delayMs).Valid ∧
      (g.setDelayTime delayMs).writeIndex = 0 ∧
      ((g.setDelayTime delayMs).buffer.length : Int) = toInt (maxMs * sr / 1000) := by
  have hx0 : (0 : ℚ) ≤ maxMs * sr / 1000 := by linarith
  have hn0 : 0 ≤ toInt (maxMs * sr / 1000) := toInt_nonneg hx0
  have hn2 : 2 ≤ toInt (maxMs * sr / 1000) := by
    rw [toInt_of_nonneg hx0]
    exact Int.le_floor.mpr (by exact_mod_cast hlo)
  have hn31 : toInt (maxMs * sr / 1000) < 2 ^ 31 := by
    rw [toInt_of_nonneg hx0]
    exact Int.floor_lt.mpr (by exact_mod_cast hhi)
  have hy0 : (0 : ℚ) ≤ delayMs * sr / 1000 := by positivity
  have hy : delayMs * sr / 1000 < 2 ^ 64 := by
    have : delayMs * sr / 1000 ≤ maxMs * sr / 1000 := by
      apply div_le_div_of_nonneg_right _ (by norm_num)
      exact mul_le_mul_of_nonneg_right hdm hsr
    have h2 : ((2 : ℚ) ^ 31) < 2 ^ 64 := by norm_num
    linarith
  have hd0' : 0 ≤ toInt (delayMs * sr / 1000) := toInt_nonneg hy0
  have hd64 : toInt (delayMs * sr / 1000) < 2 ^ 64 := by
    rw [toInt_of_nonneg hy0]
    exact Int.floor_lt.mpr (by exact_mod_cast hy)
  refine ⟨_, CombFilter.comb_prepare_eq f hx0, ?_, rfl, ?_⟩
  · have hlen : 2 ≤ (f.buffer.take (toInt (maxMs * sr / 1000)).toNat ++
        List.replicate ((toInt (maxMs * sr / 1000)).toNat - f.buffer.length) 0).length := by
      rw [length_take_append_replicate]; omega
    have hr := clampDelay_range hd0' hd64 hlen
    simp only [CombFilter.Valid, CombFilter.setDelayTime]
    refine ⟨le_refl _, by omega, hr.1, hr.2, ?_⟩
    rw [length_take_append_replicate]
    omega
  · simp only [CombFilter.setDelayTime, length_take_append_replicate]
    omega

theorem AllPassFilter.allpass_prepare_eq (f : AllPassFilter) {sr maxMs : ℚ} (h : 0 ≤ maxMs * sr / 1000) :
    f.prepare sr maxMs = some
      { f with
        sampleRate := sr
        buffer := f.buffer.take (toInt (maxMs * sr / 1000)).toNat ++
          List.replicate ((toInt (maxMs * sr / 1000)).toNat - f.buffer.length) 0
        writeIndex := 0 } := by
  simp only [AllPassFilter.prepare, resize_of_nonneg _ (toInt_nonneg h), Option.bind_eq_bind,
    Option.some_bind, Option.pure_def]

theorem AllPassFilter.allpass_prepare_setDelayTime_valid (f : AllPassFilter) (sr maxMs delayMs : ℚ)
    (hsr : 0 ≤ sr) (hd0 : 0 ≤ delayMs) (hdm : delayMs ≤ maxMs)
    (hlo : 2 ≤ maxMs * sr / 1000) (hhi : maxMs * sr / 1000 < 2 ^ 31) :
    ∃ g, f.prepare sr maxMs = some g ∧ (g.setDelayTime delayMs).Valid ∧
      (g.setDelayTime delayMs).writeIndex = 0 ∧
      ((g.setDelayTime delayMs).buffer.length : Int) = toInt (maxMs * sr / 1000) := by
  have hx0 : (0 : ℚ) ≤ maxMs * sr / 1000 := by linarith
  have hn0 : 0 ≤ toInt (maxMs * sr / 1000) := toInt_nonneg hx0
  have hn2 : 2 ≤ toInt (maxMs * sr / 1000) := by
    rw [toInt_of_nonneg hx0]
    exact Int.le_floor.mpr (by exact_mod_cast hlo)
  have hn31 : toInt (maxMs * sr / 1000) < 2 ^ 31 := by
    rw [toInt_of_nonneg hx0]
    exact Int.floor_lt.mpr (by exact_mod_cast hhi)
  have hy0 : (0 : ℚ) ≤ delayMs * sr / 1000 := by positivity
  have hy : delayMs * sr / 1000 < 2 ^ 64 := by
    have : delayMs * sr / 1000 ≤ maxMs * sr / 1000 := by
      apply div_le_div_of_nonneg_right _ (by norm_num)
      exact mul_le_mul_of_nonneg_right hdm hsr
    have h2 : ((2 : ℚ) ^ 31) < 2 ^ 64 := by norm_num
    linarith
  have hd0' : 0 ≤ toInt (delayMs * sr / 1000) := toInt_nonneg hy0
  have hd64 : toInt (delayMs * sr / 1000) < 2 ^ 64 := by
    rw [toInt_of_nonneg hy0]
    exact Int.floor_lt.mpr (by exact_mod_cast hy)
  refine ⟨_, AllPassFilter.allpass_prepare_eq f hx0, ?_, rfl, ?_⟩
  · have hlen : 2 ≤ (f.buffer.take (toInt (maxMs * sr / 1000)).toNat ++
        List.replicate ((toInt (maxMs * sr / 1000)).toNat - f.buffer.length) 0).length := by
      rw [length_take_append_replicate]; omega
    have hr := clampDelay_range hd0' hd64 hlen
    simp only [AllPassFilter.Valid, AllPassFilter.setDelayTime]
    refine ⟨le_refl _, by omega, hr.1, hr.2, ?_⟩
    rw [length_take_append_replicate]
    omega
  · simp only [AllPassFilter.setDelayTime, length_take_append_replicate]
    omega

/-! ## Preparing the engine -/

theorem CombFilter.valid_setFeedback_setDamping {c : CombFilter} (h : c.Valid) (fb dp : ℚ) :
    ((c.setFeedback fb).setDamping dp).Valid := h

theorem DomeReverb.prepareCombs_spec {sr : ℚ} (hlo : 100 ≤ sr) (hhi : sr ≤ 10 ^ 9) :
    ∀ (cs : List CombFilter) (ds : List ℚ), (∀ d ∈ ds, 0 ≤ d ∧ d ≤ 150) →
      ∃ cs', DomeReverb.prepareCombs sr cs ds = some cs' ∧
        cs'.length = min cs.length ds.length ∧
        ∀ c ∈ cs', c.Valid ∧ c.feedback = 82 / 100 ∧ c.damping = 3 / 10 := by
  intro cs
  induction cs with
  | nil => intro ds _; exact ⟨[], by simp [DomeReverb.prepareCombs]⟩
  | cons c cs ih =>
    intro ds hds
    cases ds with
    | nil => exact ⟨[], by simp [DomeReverb.prepareCombs]⟩
    | cons d ds =>
      obtain ⟨hd0, hd150⟩ := hds d (List.mem_cons_self _ _)
      obtain ⟨g, hg, hv, -, -⟩ := CombFilter.comb_prepare_setDelayTime_valid c
        sr 150 d (by linarith) hd0 hd150
        (by linarith) (by norm_num at hhi ⊢; linarith)
      obtain ⟨cs', hcs', hlen, hall⟩ := ih ds (fun x hx => hds x (List.mem_cons_of_mem _ hx))
      refine ⟨((g.setDelayTime d).setFeedback (82 / 100)).setDamping (3 / 10) :: cs', ?_, ?_, ?_⟩
      · simp only [DomeReverb.prepareCombs, DomeReverb.prepareComb, hg, hcs',
          Option.bind_eq_bind, Option.some_bind, Option.pure_def]
      · simp only [List.length_cons, hlen]
        omega
      · intro x hx
        rcases List.mem_cons.mp hx with rfl | hx
        · refine ⟨CombFilter.valid_setFeedback_setDamping hv _ _, ?_, ?_⟩
          · simp only [CombFilter.setDamping, CombFilter.setFeedback, clamp]
            norm_num
          · simp only [CombFilter.setDamping, clamp]
            norm_num
        · exact hall x hx

theorem DomeReverb.prepareAllPasses_spec {sr : ℚ} (hlo : 100 ≤ sr) (hhi : sr ≤ 10 ^ 9) :
    ∀ (as : List AllPassFilter) (ds : List ℚ), (∀ d ∈ ds, 0 ≤ d ∧ d ≤ 30) →
      ∃ as', DomeReverb.prepareAllPasses sr as ds = some as' ∧
        as'.length = min as.length ds.length ∧ ∀ a ∈ as', a.Valid := by
  intro as
  induction as with
  | nil => intro ds _; exact ⟨[], by simp [DomeReverb.prepareAllPasses]⟩
  | cons a as ih =>
    intro ds hds
    cases ds with
    | nil => exact ⟨[], by simp [DomeReverb.prepareAllPasses]⟩
    | cons d ds =>
      obtain ⟨hd0, hd30⟩ := hds d (List.mem_cons_self _ _)
      obtain ⟨g, hg, hv, -, -⟩ := AllPassFilter.allpass_prepare_setDelayTime_valid a
        sr 30 d (by linarith) hd0 hd30
        (by linarith) (by norm_num at hhi ⊢; linarith)
      obtain ⟨as', has', hlen, hall⟩ := ih ds (fun x hx => hds x (List.mem_cons_of_mem _ hx))
      refine ⟨(g.setDelayTime d).setCoefficient (1 / 2) :: as', ?_, ?_, ?_⟩
      · simp only [DomeReverb.prepareAllPasses, DomeReverb.prepareAllPass, hg, has',
          Option.bind_eq_bind, Option.some_bind, Option.pure_def]
      · simp only [List.length_cons, hlen]
        omega
      · intro x hx
        rcases List.mem_cons.mp hx with rfl | hx
        · exact hv
        · exact hall x hx

theorem DomeReverb.combDelaysL_range : ∀ d ∈ DomeReverb.combDelaysL, (0 : ℚ) ≤ d ∧ d ≤ 150 := by
  simp only [DomeReverb.combDelaysL, List.mem_cons, List.mem_singleton, List.not_mem_nil,
    or_false]
  rintro d (rfl | rfl | rfl | rfl | rfl | rfl | rfl | rfl) <;> norm_num

theorem DomeReverb.combDelaysR_range : ∀ d ∈ DomeReverb.combDelaysR, (0 : ℚ) ≤ d ∧ d ≤ 150 := by
  simp only [DomeReverb.combDelaysR, List.mem_cons, List.mem_singleton, List.not_mem_nil,
    or_false]
  rintro d (rfl | rfl | rfl | rfl | rfl | rfl | rfl | rfl) <;> norm_num

theorem DomeReverb.allPassDelaysL_range :
    ∀ d ∈ DomeReverb.allPassDelaysL, (0 : ℚ) ≤ d ∧ d ≤ 30 := by
  simp only [DomeReverb.allPassDelaysL, List.mem_cons, List.mem_singleton, List.not_mem_nil,
    or_false]
  rintro d (rfl | rfl | rfl | rfl) <;> norm_num

theorem DomeReverb.allPassDelaysR_range :
    ∀ d ∈ DomeReverb.allPassDelaysR, (0 : ℚ) ≤ d ∧ d ≤ 30 := by
  simp only [DomeReverb.allPassDelaysR, List.mem_cons, List.mem_singleton, List.not_mem_nil,
    or_false]
  rintro d (rfl | rfl | rfl | rfl) <;> norm_num

/-- Method `prepare` succeeds on an engine with 8 + 8 comb and 4 + 4 all-pass filters for a
sample rate between 100 Hz and 1 GHz, and leaves a prepared engine whose comb filters have
feedback `0.82` and damping `0.3`; the scalar parameters are not touched. -/
theorem DomeReverb.prepare_spec {σ : Type} (M : IIRFilterOps σ) (e₀ : DomeReverb σ)
    (hL : e₀.combFiltersL.length = 8) (hR : e₀.combFiltersR.length = 8)
    (hAL : e₀.allPassFiltersL.length = 4) (hAR : e₀.allPassFiltersR.length = 4)
    (sr : ℚ) (hlo : 100 ≤ sr) (hhi : sr ≤ 10 ^ 9) (samplesPerBlock : Int) :
    ∃ e, DomeReverb.prepare M e₀ sr samplesPerBlock = some e ∧ e.Prepared ∧
      e.sampleRate = sr ∧ e.domeAmount = e₀.domeAmount ∧
      (∀ c ∈ e.combFiltersL, c.feedback = 82 / 100 ∧ c.damping = 3 / 10) ∧
      (∀ c ∈ e.combFiltersR, c.feedback = 82 / 100 ∧ c.damping = 3 / 10) := by
  obtain ⟨cl, hcl, hcll, hclv⟩ :=
    DomeReverb.prepareCombs_spec hlo hhi e₀.combFiltersL _ DomeReverb.combDelaysL_range
  obtain ⟨cr, hcr, hcrl, hcrv⟩ :=
    DomeReverb.prepareCombs_spec hlo hhi e₀.combFiltersR _ DomeReverb.combDelaysR_range
  obtain ⟨al, hal, hall, halv⟩ :=
    DomeReverb.prepareAllPasses_spec hlo hhi e₀.allPassFiltersL _
      DomeReverb.allPassDelaysL_range
  obtain ⟨ar, har, harl, harv⟩ :=
    DomeReverb.prepareAllPasses_spec hlo hhi e₀.allPassFiltersR _
      DomeReverb.allPassDelaysR_range
  have hx0 : (0 : ℚ) ≤ 50 * sr / 1000 := by linarith
  have hn0 : 0 ≤ toInt (50 * sr / 1000) := toInt_nonneg hx0
  have hn1 : 1 ≤ toInt (50 * sr / 1000) := by
    rw [toInt_of_nonneg hx0]
    exact Int.le_floor.mpr (by norm_num; linarith)
  have hex : ∃ e, DomeReverb.prepare M e₀ sr samplesPerBlock = some e := by
    simp only [DomeReverb.prepare, hcl, hcr, hal, har, resize_of_nonneg _ hn0,
      Option.bind_eq_bind, Option.some_bind, Option.pure_def]
    exact ⟨_, rfl⟩
  obtain ⟨e, he⟩ := hex
  have he' := he
  simp only [DomeReverb.prepare, hcl, hcr, hal, har, resize_of_nonneg _ hn0,
    Option.bind_eq_bind, Option.some_bind, Option.pure_def, Option.some.injEq] at he'
  subst he'
  refine ⟨_, he, ?_, rfl, rfl, fun c hc => (hclv c hc).2, fun c hc => (hcrv c hc).2⟩
  have hlenL := length_take_append_replicate e₀.preDelayBufferL (toInt (50 * sr / 1000)).toNat
  have hlenR := length_take_append_replicate e₀.preDelayBufferR (toInt (50 * sr / 1000)).toNat
  constructor
  · show (0 : ℚ) < sr
    linarith
  · show cl.length = 8
    rw [hcll, hL]; rfl
  · show cr.length = 8
    rw [hcrl, hR]; rfl
  · show al.length = 4
    rw [hall, hAL]; rfl
  · show ar.length = 4
    rw [harl, hAR]; rfl
  · exact fun c hc => (hclv c hc).1
  · exact fun c hc => (hcrv c hc).1
  · exact halv
  · exact harv
  · show ((_ : List ℚ).length : Int) = toInt (50 * sr / 1000)
    rw [hlenL]; omega
  · show ((_ : List ℚ).length : Int) = toInt (50 * sr / 1000)
    rw [hlenR]; omega
  · show 0 < (_ : List ℚ).length
    rw [hlenL]; omega
  · show 0 < (_ : List ℚ).length
    rw [hlenR]; omega
  · show (0 : Int) ≤ 0 ∧ (0 : Int) < ((_ : List ℚ).length : Int)
    rw [hlenL]; omega
  · show (0 : Int) ≤ 0 ∧ (0 : Int) < ((_ : List ℚ).length : Int)
    rw [hlenR]; omega

theorem demoEngine_spec :
    DomeReverb.prepare averagingOps (DomeReverb.init averagingOps) 44100 512 = some demoEngine ∧
      demoEngine.Prepared ∧ demoEngine.sampleRate = 44100 := by
  obtain ⟨e, he, hp, hsr, -⟩ := DomeReverb.prepare_spec averagingOps
    (DomeReverb.init averagingOps) (by simp [DomeReverb.init]) (by simp [DomeReverb.init])
    (by simp [DomeReverb.init]) (by simp [DomeReverb.init])
    44100 (by norm_num) (by norm_num) 512
  have : demoEngine = e := by simp [demoEngine, he]
  rw [this]
  exact ⟨he, hp, hsr⟩

/-! ## Rounding to a floating-point format -/

theorem twoPow_pos (k : Int) : 0 < twoPow k := by
  unfold twoPow
  split_ifs <;> positivity

theorem roundHalfEven_nonneg {q : ℚ} (h : 0 ≤ q) : 0 ≤ roundHalfEven q := by
  have hf : 0 ≤ Int.floor q := Int.floor_nonneg.mpr h
  unfold roundHalfEven
  split_ifs <;> omega

theorem roundBinary_nonneg (p : Nat) (emin : Int) {x : ℚ} (h : 0 ≤ x) :
    0 ≤ roundBinary p emin x := by
  unfold roundBinary
  have hq : 0 ≤ x / twoPow (max (binaryExponent x) emin - ((p : Int) - 1)) :=
    div_nonneg h (twoPow_pos _).le
  exact mul_nonneg (by exact_mod_cast roundHalfEven_nonneg hq) (twoPow_pos _).le

theorem roundFloat_nonneg {x : ℚ} (h : 0 ≤ x) : 0 ≤ roundFloat x :=
  roundBinary_nonneg 24 (-126) h

theorem roundDouble_nonneg {x : ℚ} (h : 0 ≤ x) : 0 ≤ roundDouble x :=
  roundBinary_nonneg 53 (-1022) h

theorem leadingBit_spec : ∀ (fuel n : Nat), n ≤ fuel → 0 < n →
    2 ^ leadingBit fuel n ≤ n ∧ n < 2 ^ (leadingBit fuel n + 1)
  | 0, n, h, h0 => by omega
  | fuel + 1, n, h, h0 => by
    unfold leadingBit
    split_ifs with h2
    · obtain ⟨a, b⟩ := leadingBit_spec fuel (n / 2) (by omega) (by omega)
      constructor
      · rw [pow_succ]
        omega
      · rw [pow_succ]
        omega
    · simp only [pow_zero, zero_add, pow_one]
      omega

theorem twoPow_eq_zpow (k : Int) : twoPow k = (2 : ℚ) ^ k := by
  unfold twoPow
  split_ifs with h
  · obtain ⟨n, rfl⟩ := Int.eq_ofNat_of_zero_le h
    simp
  · obtain ⟨n, hn⟩ := Int.exists_eq_neg_ofNat (by omega : k ≤ 0)
    subst hn
    simp

theorem roundHalfEven_error (q : ℚ) : |(roundHalfEven q : ℚ) - q| ≤ 1 / 2 := by
  have h1 := Int.floor_le q
  have h2 := Int.lt_floor_add_one q
  unfold roundHalfEven
  rw [abs_le]
  split_ifs with a b c
  · constructor <;> linarith
  · push_cast
    constructor <;> linarith
  · constructor <;> linarith
  · push_cast
    constructor <;> linarith

/-- The rounded value lies on the grid of the binade of `x` (or of the subnormal numbers)
and is a nearest grid point: it differs from `x` by at most half the grid spacing. -/
theorem roundBinary_error (p : Nat) (emin : Int) (x : ℚ) :
    (∃ m : Int, roundBinary p emin x
      = m * (2 : ℚ) ^ (max (binaryExponent x) emin - ((p : Int) - 1))) ∧
    |roundBinary p emin x - x|
      ≤ (2 : ℚ) ^ (max (binaryExponent x) emin - ((p : Int) - 1)) / 2 := by
  have hu : (0 : ℚ) < (2 : ℚ) ^ (max (binaryExponent x) emin - ((p : Int) - 1)) := by positivity
  unfold roundBinary
  rw [twoPow_eq_zpow]
  refine ⟨⟨_, rfl⟩, ?_⟩
  have h := roundHalfEven_error (x / (2 : ℚ) ^ (max (binaryExponent x) emin - ((p : Int) - 1)))
  have hx : (roundHalfEven (x / (2 : ℚ) ^ (max (binaryExponent x) emin - ((p : Int) - 1))) : ℚ)
        * (2 : ℚ) ^ (max (binaryExponent x) emin - ((p : Int) - 1)) - x
      = ((roundHalfEven (x / (2 : ℚ) ^ (max (binaryExponent x) emin - ((p : Int) - 1))) : ℚ)
        - x / (2 : ℚ) ^ (max (binaryExponent x) emin - ((p : Int) - 1)))
        * (2 : ℚ) ^ (max (binaryExponent x) emin - ((p : Int) - 1)) := by
    field_simp
  rw [hx, abs_mul, abs_of_pos hu]
  calc _ ≤ 1 / 2 * (2 : ℚ) ^ (max (binaryExponent x) emin - ((p : Int) - 1)) :=
        mul_le_mul_of_nonneg_right h hu.le
    _ = _ := by ring

theorem zpow_two_cases (k : Nat) :
    (2 : ℚ) ^ ((k : Int) + 1) = 2 ^ k * 2 ∧ (2 : ℚ) ^ ((k : Int) - 1) = 2 ^ k / 2 ∧
    (2 : ℚ) ^ ((k : Int) - 1 + 1) = 2 ^ k ∧
    (2 : ℚ) ^ (-(k : Int)) = 1 / 2 ^ k ∧ (2 : ℚ) ^ (-(k : Int) + 1) = 2 / 2 ^ k ∧
    (2 : ℚ) ^ (-(k : Int) - 1) = 1 / (2 ^ k * 2) ∧
    (2 : ℚ) ^ (-(k : Int) - 1 + 1) = 1 / 2 ^ k := by
  have h2 : (2 : ℚ) ≠ 0 := by norm_num
  refine ⟨?_, ?_, ?_, ?_, ?_, ?_, ?_⟩
  · rw [zpow_add₀ h2, zpow_natCast, zpow_one]
  · rw [zpow_sub₀ h2, zpow_natCast, zpow_one]
  · rw [sub_add_cancel, zpow_natCast]
  · rw [zpow_neg, zpow_natCast, one_div]
  · rw [zpow_add₀ h2, zpow_neg, zpow_natCast, zpow_one]
    field_simp
  · rw [zpow_sub₀ h2, zpow_neg, zpow_natCast, zpow_one]
    field_simp
  · rw [sub_add_cancel, zpow_neg, zpow_natCast, one_div]

/-- The exponent found by `binaryExponent` is the exponent of the binade of `x`. -/
theorem binaryExponent_spec {x : ℚ} (hx : x ≠ 0) :
    (2 : ℚ) ^ binaryExponent x ≤ |x| ∧ |x| < (2 : ℚ) ^ (binaryExponent x + 1) := by
  have hn0 : 0 < x.num.natAbs := Int.natAbs_pos.mpr (Rat.num_ne_zero.mpr hx)
  have hd0 : 0 < x.den := x.den_pos
  obtain ⟨hn1, hn2⟩ := leadingBit_spec x.num.natAbs x.num.natAbs le_rfl hn0
  obtain ⟨hd1, hd2⟩ := leadingBit_spec x.den x.den le_rfl hd0
  have habs : |x| = (x.num.natAbs : ℚ) / (x.den : ℚ) := by
    conv_lhs => rw [← Rat.num_div_den x]
    rw [abs_div, Nat.cast_natAbs, Int.cast_abs]
    congr 1
    exact abs_of_pos (by exact_mod_cast hd0)
  have hdq : (0 : ℚ) < (x.den : ℚ) := by exact_mod_cast hd0
  rw [habs]
  unfold binaryExponent
  generalize x.num.natAbs = n at *
  generalize x.den = d at *
  generalize leadingBit n n = a at *
  generalize leadingBit d d = b at *
  have hn1q : (2 : ℚ) ^ a ≤ n := by exact_mod_cast hn1
  have hn2q : (n : ℚ) < 2 ^ a * 2 := by rw [← pow_succ]; exact_mod_cast hn2
  have hd1q : (2 : ℚ) ^ b ≤ d := by exact_mod_cast hd1
  have hd2q : (d : ℚ) < 2 ^ b * 2 := by rw [← pow_succ]; exact_mod_cast hd2
  have hP : ∀ k : Nat, (0 : ℚ) < 2 ^ k := fun k => by positivity
  split_ifs with hab h1 h2
  · obtain ⟨k, rfl⟩ := Nat.exists_eq_add_of_le hab
    rw [Nat.add_sub_cancel_left] at h1 ⊢
    have h1q : (d : ℚ) * 2 ^ k ≤ n := by exact_mod_cast h1
    rw [pow_add] at hn1q hn2q
    rw [(zpow_two_cases k).1, zpow_natCast, le_div_iff₀ hdq, div_lt_iff₀ hdq]
    constructor
    · linarith
    · nlinarith [hP k, hP b]
  · obtain ⟨k, rfl⟩ := Nat.exists_eq_add_of_le hab
    rw [Nat.add_sub_cancel_left] at h1 ⊢
    have h1q : (n : ℚ) < d * 2 ^ k := by exact_mod_cast not_le.mp h1
    rw [pow_add] at hn1q hn2q
    rw [(zpow_two_cases k).2.1, (zpow_two_cases k).2.2.1, le_div_iff₀ hdq, div_lt_iff₀ hdq]
    constructor
    · nlinarith [hP k, hP b]
    · linarith
  · obtain ⟨k, rfl⟩ := Nat.exists_eq_add_of_le (not_le.mp hab).le
    rw [Nat.add_sub_cancel_left] at h2 ⊢
    have h2q : (d : ℚ) ≤ n * 2 ^ k := by exact_mod_cast h2
    rw [pow_add] at hd1q hd2q
    rw [(zpow_two_cases k).2.2.2.1, (zpow_two_cases k).2.2.2.2.1, le_div_iff₀ hdq,
      div_lt_iff₀ hdq, div_mul_eq_mul_div, div_mul_eq_mul_div, div_le_iff₀ (hP k),
      lt_div_iff₀ (hP k)]
    constructor
    · linarith
    · nlinarith [hP k, hP a]
  · obtain ⟨k, rfl⟩ := Nat.exists_eq_add_of_le (not_le.mp hab).le
    rw [Nat.add_sub_cancel_left] at h2 ⊢
    have h2q : (n : ℚ) * 2 ^ k < d := by exact_mod_cast not_le.mp h2
    rw [pow_add] at hd1q hd2q
    rw [(zpow_two_cases k).2.2.2.2.2.1, (zpow_two_cases k).2.2.2.2.2.2, le_div_iff₀ hdq,
      div_lt_iff₀ hdq, div_mul_eq_mul_div, div_mul_eq_mul_div, div_le_iff₀ (by positivity),
      lt_div_iff₀ (hP k)]
    constructor
    · nlinarith [hP k, hP a]
    · linarith

/-! ## The parameter mapper -/

theorem clamp_eq_min_max (v lo hi : ℚ) (h : lo ≤ hi) :
    clamp v lo hi = min (max v lo) hi := by
  unfold clamp
  split_ifs with h1 h2
  · rw [max_eq_right h1.le, min_eq_left h]
  · rw [max_eq_left (not_lt.mp h1), min_eq_right h2.le]
  · rw [max_eq_left (not_lt.mp h1), min_eq_left (not_lt.mp h2)]

theorem clamp_of_mem {v lo hi : ℚ} (h1 : lo ≤ v) (h2 : v ≤ hi) : clamp v lo hi = v := by
  unfold clamp
  rw [if_neg (not_lt.mpr h1), if_neg (not_lt.mpr h2)]

theorem clamp_unit_range (a : ℚ) : 0 ≤ clamp a 0 1 ∧ clamp a 0 1 ≤ 1 := by
  unfold clamp
  split_ifs <;> constructor <;> linarith

/-- The pre-delay clamp of `updateParameters` is a minimum. -/
theorem preDelayClamp_eq_min (n len : Int) :
    (if n ≥ len then len - 1 else n) = min n (len - 1) := by
  split_ifs with h
  · exact (min_eq_right (by omega)).symm
  · exact (min_eq_left (by omega)).symm

/-- C4 (with the pre-delay lengths as the code rounds them). Method `setDomeAmount` on a
prepared engine (a positive sample rate, 8 + 8 comb filters, two pre-delay buffers of the
length `prepare` gives them), for any
requested amount `a` and `c = min (max a 0) 1`: the dome amount is `c`, the wet gain `0.6 c`,
the dry gain `1 - 0.3 c`; each of the 8 + 8 comb filters has feedback `0.75 + 0.12 c` and
damping `0.15 + 0.35 c`; the low-pass coefficients are requested for the cutoff
`10000 - 5000 c`; the pre-delay lengths are `min (floor qL) (capacity - 1)` and
`min (floor qR) (capacity - 1)`, where `capacity = floor (50 * sampleRate / 1000)` is the
length of both pre-delay buffers and `qL` is the value the code computes for
`c * 25 * sampleRate / 1000`: the product `c * 25` rounded to `float`, multiplied by the
sample rate and divided by 1000 as `double` operations (`qR` likewise with 30).  Whenever
these three operations are exact, the lengths are
`min (floor (c * 25 * sampleRate / 1000)) (capacity - 1)` and
`min (floor (c * 30 * sampleRate / 1000)) (capacity - 1)`. -/
theorem setDomeAmount_derived {σ : Type} (M : IIRFilterOps σ) (e : DomeReverb σ)
    (hsr : 0 < e.sampleRate)
    (hcombsL : e.combFiltersL.length = 8) (hcombsR : e.combFiltersR.length = 8)
    (hbufL : (e.preDelayBufferL.length : Int) = toInt (50 * e.sampleRate / 1000))
    (hbufR : (e.preDelayBufferR.length : Int) = toInt (50 * e.sampleRate / 1000)) (a : ℚ) :
    (DomeReverb.setDomeAmount M e a).domeAmount = min (max a 0) 1 ∧
    (DomeReverb.setDomeAmount M e a).wetGain = 6 / 10 * min (max a 0) 1 ∧
    (DomeReverb.setDomeAmount M e a).dryGain = 1 - 3 / 10 * min (max a 0) 1 ∧
    (DomeReverb.setDomeAmount M e a).combFiltersL.length = 8 ∧
    (DomeReverb.setDomeAmount M e a).combFiltersR.length = 8 ∧
    (∀ f ∈ (DomeReverb.setDomeAmount M e a).combFiltersL ++
        (DomeReverb.setDomeAmount M e a).combFiltersR,
      f.feedback = 75 / 100 + 12 / 100 * min (max a 0) 1 ∧
      f.damping = 15 / 100 + 35 / 100 * min (max a 0) 1) ∧
    (DomeReverb.setDomeAmount M e a).lowPassFilterL = M.setCoefficients e.lowPassFilterL
      (IIRCoefficients.makeLowPass e.sampleRate (10000 - 5000 * min (max a 0) 1)) ∧
    (DomeReverb.setDomeAmount M e a).lowPassFilterR = M.setCoefficients e.lowPassFilterR
      (IIRCoefficients.makeLowPass e.sampleRate (10000 - 5000 * min (max a 0) 1)) ∧
    (DomeReverb.setDomeAmount M e a).preDelaySamplesL =
      min (Int.floor (roundDouble
          (roundDouble (roundFloat (min (max a 0) 1 * 25) * e.sampleRate) / 1000)))
        (Int.floor (50 * e.sampleRate / 1000) - 1) ∧
    (DomeReverb.setDomeAmount M e a).preDelaySamplesR =
      min (Int.floor (roundDouble
          (roundDouble (roundFloat (min (max a 0) 1 * 30) * e.sampleRate) / 1000)))
        (Int.floor (50 * e.sampleRate / 1000) - 1) ∧
    (roundFloat (min (max a 0) 1 * 25) = min (max a 0) 1 * 25 →
      roundDouble (min (max a 0) 1 * 25 * e.sampleRate) = min (max a 0) 1 * 25 * e.sampleRate →
      roundDouble (min (max a 0) 1 * 25 * e.sampleRate / 1000)
        = min (max a 0) 1 * 25 * e.sampleRate / 1000 →
      (DomeReverb.setDomeAmount M e a).preDelaySamplesL =
        min (Int.floor (min (max a 0) 1 * 25 * e.sampleRate / 1000))
          (Int.floor (50 * e.sampleRate / 1000) - 1)) ∧
    (roundFloat (min (max a 0) 1 * 30) = min (max a 0) 1 * 30 →
      roundDouble (min (max a 0) 1 * 30 * e.sampleRate) = min (max a 0) 1 * 30 * e.sampleRate →
      roundDouble (min (max a 0) 1 * 30 * e.sampleRate / 1000)
        = min (max a 0) 1 * 30 * e.sampleRate / 1000 →
      (DomeReverb.setDomeAmount M e a).preDelaySamplesR =
        min (Int.floor (min (max a 0) 1 * 30 * e.sampleRate / 1000))
          (Int.floor (50 * e.sampleRate / 1000) - 1)) ∧
    ((DomeReverb.setDomeAmount M e a).preDelayBufferL.length : Int) =
      Int.floor (50 * e.sampleRate / 1000) ∧
    ((DomeReverb.setDomeAmount M e a).preDelayBufferR.length : Int) =
      Int.floor (50 * e.sampleRate / 1000) := by
  have hc := clamp_eq_min_max a 0 1 (by norm_num)
  obtain ⟨hc0, hc1⟩ := clamp_unit_range a
  have hcap : toInt (50 * e.sampleRate / 1000) = Int.floor (50 * e.sampleRate / 1000) :=
    toInt_of_nonneg (by positivity)
  have hq : ∀ k : ℚ, 0 ≤ k →
      toInt (roundDouble (roundDouble (roundFloat (clamp a 0 1 * k) * e.sampleRate) / 1000))
        = Int.floor
          (roundDouble (roundDouble (roundFloat (clamp a 0 1 * k) * e.sampleRate) / 1000)) :=
    fun k hk => toInt_of_nonneg (roundDouble_nonneg (div_nonneg (roundDouble_nonneg
      (mul_nonneg (roundFloat_nonneg (mul_nonneg hc0 hk)) hsr.le)) (by norm_num)))
  have hfb : clamp (75 / 100 + clamp a 0 1 * (12 / 100)) 0 (99 / 100)
      = 75 / 100 + 12 / 100 * clamp a 0 1 := by
    rw [clamp_of_mem (by linarith) (by linarith)]; ring
  have hdp : clamp (15 / 100 + clamp a 0 1 * (35 / 100)) 0 1
      = 15 / 100 + 35 / 100 * clamp a 0 1 := by
    rw [clamp_of_mem (by linarith) (by linarith)]; ring
  have hcut : (10000 : ℚ) - clamp a 0 1 * 5000 = 10000 - 5000 * clamp a 0 1 := by ring
  rw [← hc]
  have hL : (DomeReverb.setDomeAmount M e a).preDelaySamplesL =
      min (Int.floor (roundDouble
          (roundDouble (roundFloat (clamp a 0 1 * 25) * e.sampleRate) / 1000)))
        (Int.floor (50 * e.sampleRate / 1000) - 1) := by
    simp only [DomeReverb.setDomeAmount, DomeReverb.updateParameters, preDelayClamp_eq_min,
      hbufL, hcap, hq 25 (by norm_num)]
  have hR : (DomeReverb.setDomeAmount M e a).preDelaySamplesR =
      min (Int.floor (roundDouble
          (roundDouble (roundFloat (clamp a 0 1 * 30) * e.sampleRate) / 1000)))
        (Int.floor (50 * e.sampleRate / 1000) - 1) := by
    simp only [DomeReverb.setDomeAmount, DomeReverb.updateParameters, preDelayClamp_eq_min,
      hbufR, hcap, hq 30 (by norm_num)]
  refine ⟨rfl, ?_, ?_, ?_, ?_, ?_, ?_, ?_, hL, hR, ?_, ?_, ?_, ?_⟩
  · show clamp a 0 1 * (6 / 10) = 6 / 10 * clamp a 0 1
    ring
  · show 1 - clamp a 0 1 * (3 / 10) = 1 - 3 / 10 * clamp a 0 1
    ring
  · simp only [DomeReverb.setDomeAmount, DomeReverb.updateParameters, List.length_map]
    exact hcombsL
  · simp only [DomeReverb.setDomeAmount, DomeReverb.updateParameters, List.length_map]
    exact hcombsR
  · intro f hf
    simp only [DomeReverb.setDomeAmount, DomeReverb.updateParameters] at hf
    rcases List.mem_append.mp hf with hf | hf
    · obtain ⟨g, -, rfl⟩ := List.mem_map.mp hf
      exact ⟨hfb, hdp⟩
    · obtain ⟨g, -, rfl⟩ := List.mem_map.mp hf
      exact ⟨hfb, hdp⟩
  · simp only [DomeReverb.setDomeAmount, DomeReverb.updateParameters, hcut]
  · simp only [DomeReverb.setDomeAmount, DomeReverb.updateParameters, hcut]
  · intro h1 h2 h3
    rw [hL, h1, h2, h3]
  · intro h1 h2 h3
    rw [hR, h1, h2, h3]
  · simp only [DomeReverb.setDomeAmount, DomeReverb.updateParameters, hbufL, hcap]
  · simp only [DomeReverb.setDomeAmount, DomeReverb.updateParameters, hbufR, hcap]

/-- The statement of `setDomeAmount_derived` for the engine prepared at 44100 Hz and the
out-of-range amount `2`. -/
theorem setDomeAmount_derived_witness :
    (DomeReverb.setDomeAmount averagingOps demoEngine 2).domeAmount = min (max 2 0) 1 ∧
    (DomeReverb.setDomeAmount averagingOps demoEngine 2).wetGain = 6 / 10 * min (max 2 0) 1 ∧
    (DomeReverb.setDomeAmount averagingOps demoEngine 2).dryGain
      = 1 - 3 / 10 * min (max 2 0) 1 :=
  have hp := demoEngine_spec.2.1
  have h := setDomeAmount_derived averagingOps demoEngine hp.sampleRate_pos hp.combsL_length
    hp.combsR_length hp.preDelayL_length hp.preDelayR_length 2
  ⟨h.1, h.2.1, h.2.2.1⟩

set_option maxRecDepth 1000000 in
/-- C4 (the pre-delay formula in exact arithmetic fails). The engine prepared at 48000 Hz
is a prepared engine (a positive sample rate, 8 + 8 comb filters, two pre-delay buffers of
`floor (50 * 48000 / 1000) = 2400` samples).  The requested amount is the `float` nearest to `0.01`, that is
`5368709 / 2 ^ 29`.  `setDomeAmount` stores the pre-delay length 12 for the left channel:
the exact product `c * 25` lies just below `0.25` and rounds to the `float` `0.25`, and
`0.25 * 48000 / 1000 = 12`.  The formula `min (floor (c * 25 * sampleRate / 1000))
(capacity - 1)` of the claim gives 11 for the same `c`. -/
theorem setDomeAmount_preDelay_rounds :
    roundFloat (1 / 100) = 5368709 / 536870912 ∧
    (knobEngine.map fun e =>
      (decide (0 < e.sampleRate), e.combFiltersL.length, e.combFiltersR.length,
        e.preDelayBufferL.length, e.preDelayBufferR.length))
      = some (true, 8, 8, 2400, 2400) ∧
    (knobEngine.map fun e =>
      (toInt (50 * e.sampleRate / 1000),
        (DomeReverb.setDomeAmount averagingOps e (5368709 / 536870912)).preDelaySamplesL,
        min (Int.floor (min (max (5368709 / 536870912 : ℚ) 0) 1 * 25 * e.sampleRate / 1000))
          (Int.floor (50 * e.sampleRate / 1000) - 1)))
      = some (2400, 12, 11) := by
  decide!

/-- C6. Method `setPreset` on any engine state: afterwards `getPreset` returns the preset,
the triple (dome amount, stereo width, bass boost) is the row of the preset, whatever the
previous values were, and the wet and dry gains, the comb filters (hence their feedback and
damping), the pre-delay lengths and the low-pass filters (hence the cutoff requested) are
those that `setDomeAmount` with the dome amount of the preset produces from the same state.
After `setPreset(Stadium)`, `getDomeAmount` returns `0.8` and the stereo width is `1`. -/
theorem setPreset_table {σ : Type} (M : IIRFilterOps σ) (e : DomeReverb σ) (p : DomePreset) :
    (DomeReverb.setPreset M e p).getPreset = p ∧
    ((DomeReverb.setPreset M e p).domeAmount, (DomeReverb.setPreset M e p).stereoWidth,
        (DomeReverb.setPreset M e p).bassBoost) =
      (match p with
        | DomePreset.Arena => ((60 / 100 : ℚ), (80 / 100 : ℚ), (15 / 10 : ℚ))
        | DomePreset.Stadium => (80 / 100, 1, 18 / 10)
        | DomePreset.Hall => (40 / 100, 60 / 100, 12 / 10)
        | DomePreset.Club => (25 / 100, 50 / 100, 2)) ∧
    (DomeReverb.setPreset M e p).wetGain =
      (DomeReverb.setDomeAmount M e (DomeReverb.setPreset M e p).domeAmount).wetGain ∧
    (DomeReverb.setPreset M e p).dryGain =
      (DomeReverb.setDomeAmount M e (DomeReverb.setPreset M e p).domeAmount).dryGain ∧
    (DomeReverb.setPreset M e p).combFiltersL =
      (DomeReverb.setDomeAmount M e (DomeReverb.setPreset M e p).domeAmount).combFiltersL ∧
    (DomeReverb.setPreset M e p).combFiltersR =
      (DomeReverb.setDomeAmount M e (DomeReverb.setPreset M e p).domeAmount).combFiltersR ∧
    (DomeReverb.setPreset M e p).preDelaySamplesL =
      (DomeReverb.setDomeAmount M e (DomeReverb.setPreset M e p).domeAmount).preDelaySamplesL ∧
    (DomeReverb.setPreset M e p).preDelaySamplesR =
      (DomeReverb.setDomeAmount M e (DomeReverb.setPreset M e p).domeAmount).preDelaySamplesR ∧
    (DomeReverb.setPreset M e p).lowPassFilterL =
      (DomeReverb.setDomeAmount M e (DomeReverb.setPreset M e p).domeAmount).lowPassFilterL ∧
    (DomeReverb.setPreset M e p).lowPassFilterR =
      (DomeReverb.setDomeAmount M e (DomeReverb.setPreset M e p).domeAmount).lowPassFilterR ∧
    (DomeReverb.setPreset M e DomePreset.Stadium).getDomeAmount = 80 / 100 ∧
    (DomeReverb.setPreset M e DomePreset.Stadium).stereoWidth = 1 := by
  have h6 : clamp (6 / 10) 0 1 = 6 / 10 := clamp_of_mem (by norm_num) (by norm_num)
  have h8 : clamp (8 / 10) 0 1 = 8 / 10 := clamp_of_mem (by norm_num) (by norm_num)
  have h4 : clamp (4 / 10) 0 1 = 4 / 10 := clamp_of_mem (by norm_num) (by norm_num)
  have h25 : clamp (25 / 100) 0 1 = 25 / 100 := clamp_of_mem (by norm_num) (by norm_num)
  cases p <;>
    simp only [DomeReverb.setPreset, DomeReverb.setDomeAmount, DomeReverb.updateParameters,
      DomeReverb.getPreset, DomeReverb.getDomeAmount, h6, h8, h4, h25, true_and, and_true,
      Prod.mk.injEq] <;>
    norm_num

/-! ## The derived comb coefficients stay in range -/

theorem DomeReverb.prepareCombs_coefficients (sr : ℚ) :
    ∀ (cs : List CombFilter) (ds : List ℚ) (cs' : List CombFilter),
      DomeReverb.prepareCombs sr cs ds = some cs' →
      cs'.length = min cs.length ds.length ∧
        ∀ c ∈ cs', c.feedback = 82 / 100 ∧ c.damping = 3 / 10 := by
  intro cs
  induction cs with
  | nil =>
    intro ds cs' h
    simp only [DomeReverb.prepareCombs, Option.some.injEq] at h
    subst h
    simp
  | cons c cs ih =>
    intro ds cs' h
    cases ds with
    | nil =>
      simp only [DomeReverb.prepareCombs, Option.some.injEq] at h
      subst h
      simp
    | cons d ds =>
      simp only [DomeReverb.prepareCombs, DomeReverb.prepareComb, Option.bind_eq_bind,
        Option.bind_eq_some, Option.pure_def, Option.some.injEq] at h
      obtain ⟨g, ⟨g₀, -, rfl⟩, tl, htl, rfl⟩ := h
      obtain ⟨hlen, hall⟩ := ih ds tl htl
      refine ⟨by simp only [List.length_cons, hlen]; omega, ?_⟩
      intro x hx
      rcases List.mem_cons.mp hx with rfl | hx
      · constructor
        · simp only [CombFilter.setDamping, CombFilter.setFeedback, clamp]
          norm_num
        · simp only [CombFilter.setDamping, clamp]
          norm_num
      · exact hall x hx

theorem DomeReverb.prepareAllPasses_length (sr : ℚ) :
    ∀ (as : List AllPassFilter) (ds : List ℚ) (as' : List AllPassFilter),
      DomeReverb.prepareAllPasses sr as ds = some as' →
      as'.length = min as.length ds.length := by
  intro as
  induction as with
  | nil =>
    intro ds as' h
    simp only [DomeReverb.prepareAllPasses, Option.some.injEq] at h
    subst h
    simp
  | cons a as ih =>
    intro ds as' h
    cases ds with
    | nil =>
      simp only [DomeReverb.prepareAllPasses, Option.some.injEq] at h
      subst h
      simp
    | cons d ds =>
      simp only [DomeReverb.prepareAllPasses, Option.bind_eq_bind,
        Option.bind_eq_some, Option.pure_def, Option.some.injEq] at h
      obtain ⟨g, -, tl, htl, rfl⟩ := h
      have hlen := ih ds tl htl
      simp only [List.length_cons, hlen]
      omega

theorem DomeReverb.combInvariant_prepare {σ : Type} (M : IIRFilterOps σ) {e₀ e : DomeReverb σ}
    (hL : e₀.combFiltersL.length = 8) (hR : e₀.combFiltersR.length = 8)
    (hAL : e₀.allPassFiltersL.length = 4) (hAR : e₀.allPassFiltersR.length = 4)
    (hd : 0 ≤ e₀.domeAmount ∧ e₀.domeAmount ≤ 1)
    {sr : ℚ} {samplesPerBlock : Int}
    (he : DomeReverb.prepare M e₀ sr samplesPerBlock = some e) : e.CombInvariant := by
  simp only [DomeReverb.prepare, Option.bind_eq_bind, Option.bind_eq_some, Option.pure_def,
    Option.some.injEq] at he
  obtain ⟨cl, hcl, cr, hcr, al, hal, ar, har, bl, -, br, -, rfl⟩ := he
  obtain ⟨hcll, hclc⟩ := DomeReverb.prepareCombs_coefficients sr _ _ _ hcl
  obtain ⟨hcrl, hcrc⟩ := DomeReverb.prepareCombs_coefficients sr _ _ _ hcr
  have hall := DomeReverb.prepareAllPasses_length sr _ _ _ hal
  have harl := DomeReverb.prepareAllPasses_length sr _ _ _ har
  refine ⟨?_, ?_, ?_, ?_, hd, ?_⟩
  · show cl.length = 8
    rw [hcll, hL]; rfl
  · show cr.length = 8
    rw [hcrl, hR]; rfl
  · show al.length = 4
    rw [hall, hAL]; rfl
  · show ar.length = 4
    rw [harl, hAR]; rfl
  · intro c hc
    rcases List.mem_append.mp hc with hc | hc
    · exact Or.inl (hclc c hc)
    · exact Or.inl (hcrc c hc)

theorem DomeReverb.combInvariant_updateParameters {σ : Type} (M : IIRFilterOps σ)
    {e : DomeReverb σ} (hL : e.combFiltersL.length = 8) (hR : e.combFiltersR.length = 8)
    (hAL : e.allPassFiltersL.length = 4) (hAR : e.allPassFiltersR.length = 4)
    (hd : 0 ≤ e.domeAmount ∧ e.domeAmount ≤ 1) :
    (DomeReverb.updateParameters M e).CombInvariant := by
  have hfb : clamp (75 / 100 + e.domeAmount * (12 / 100)) 0 (99 / 100)
      = 75 / 100 + e.domeAmount * (12 / 100) :=
    clamp_of_mem (by linarith [hd.1]) (by linarith [hd.2])
  have hdp : clamp (15 / 100 + e.domeAmount * (35 / 100)) 0 1
      = 15 / 100 + e.domeAmount * (35 / 100) :=
    clamp_of_mem (by linarith [hd.1]) (by linarith [hd.2])
  refine ⟨?_, ?_, hAL, hAR, hd, ?_⟩
  · simp only [DomeReverb.updateParameters, List.length_map]
    exact hL
  · simp only [DomeReverb.updateParameters, List.length_map]
    exact hR
  · intro c hc
    simp only [DomeReverb.updateParameters] at hc
    right
    rcases List.mem_append.mp hc with hc | hc
    · obtain ⟨g, -, rfl⟩ := List.mem_map.mp hc
      exact ⟨hfb, hdp⟩
    · obtain ⟨g, -, rfl⟩ := List.mem_map.mp hc
      exact ⟨hfb, hdp⟩

theorem DomeReverb.combInvariant_of_reachable {σ : Type} (M : IIRFilterOps σ)
    {e : DomeReverb σ} (h : DomeReverb.Reachable M e) : e.CombInvariant := by
  induction h with
  | prepare sr n e he =>
    exact DomeReverb.combInvariant_prepare M (by simp [DomeReverb.init])
      (by simp [DomeReverb.init]) (by simp [DomeReverb.init]) (by simp [DomeReverb.init])
      (by norm_num [DomeReverb.init]) he
  | prepareAgain e₀ sr n e _ he ih =>
    exact DomeReverb.combInvariant_prepare M ih.combsL_length ih.combsR_length
      ih.allPassesL_length ih.allPassesR_length ih.domeAmount_range he
  | setDomeAmount e a _ ih =>
    exact DomeReverb.combInvariant_updateParameters M ih.combsL_length ih.combsR_length
      ih.allPassesL_length ih.allPassesR_length (clamp_unit_range a)
  | setPreset e p _ ih =>
    cases p <;>
      exact DomeReverb.combInvariant_updateParameters M ih.combsL_length ih.combsR_length
        ih.allPassesL_length ih.allPassesR_length (by constructor <;> norm_num)

/-- C5. In every engine state reached from a default-constructed engine by `prepare` and
any sequence of `setDomeAmount` (any amount), `setPreset` (any preset) and further
`prepare` calls, there are 8 + 8 comb filters, each with feedback in `[0.75, 0.87]` and
damping in `[0.15, 0.50]`; each stored pair is exactly the pair the engine passed to
`setFeedback` and `setDamping` (`(0.82, 0.3)` in `prepare`,
`(0.75 + 0.12 d, 0.15 + 0.35 d)` in `updateParameters`), so the clamps of the comb filter
to `[0, 0.99]` and `[0, 1]` did not alter it. -/
theorem reachable_comb_bounds {σ : Type} (M : IIRFilterOps σ) (e : DomeReverb σ)
    (h : DomeReverb.Reachable M e) :
    e.combFiltersL.length = 8 ∧ e.combFiltersR.length = 8 ∧
    ∀ c ∈ e.combFiltersL ++ e.combFiltersR,
      (75 / 100 ≤ c.feedback ∧ c.feedback ≤ 87 / 100 ∧
        15 / 100 ≤ c.damping ∧ c.damping ≤ 50 / 100) ∧
      ((c.feedback = 82 / 100 ∧ c.damping = 3 / 10) ∨
        (c.feedback = 75 / 100 + e.domeAmount * (12 / 100) ∧
          c.damping = 15 / 100 + e.domeAmount * (35 / 100))) ∧
      clamp c.feedback 0 (99 / 100) = c.feedback ∧ clamp c.damping 0 1 = c.damping := by
  have inv := DomeReverb.combInvariant_of_reachable M h
  obtain ⟨hd0, hd1⟩ := inv.domeAmount_range
  refine ⟨inv.combsL_length, inv.combsR_length, ?_⟩
  intro c hc
  have hb : 75 / 100 ≤ c.feedback ∧ c.feedback ≤ 87 / 100 ∧
      15 / 100 ≤ c.damping ∧ c.damping ≤ 50 / 100 := by
    rcases inv.coefficients c hc with ⟨h1, h2⟩ | ⟨h1, h2⟩
    · rw [h1, h2]; norm_num
    · rw [h1, h2]
      refine ⟨?_, ?_, ?_, ?_⟩ <;> linarith
  exact ⟨hb, inv.coefficients c hc,
    clamp_of_mem (by linarith [hb.1]) (by linarith [hb.2.1]),
    clamp_of_mem (by linarith [hb.2.2.1]) (by linarith [hb.2.2.2])⟩

/-- The statement of `reachable_comb_bounds` for the engine prepared at 44100 Hz, set to
the out-of-range amount `7` and then to the preset `Club`. -/
theorem reachable_comb_bounds_witness :
    (DomeReverb.setPreset averagingOps (DomeReverb.setDomeAmount averagingOps demoEngine 7)
        DomePreset.Club).combFiltersL.length = 8 ∧
    ∀ c ∈ (DomeReverb.setPreset averagingOps
        (DomeReverb.setDomeAmount averagingOps demoEngine 7) DomePreset.Club).combFiltersL,
      75 / 100 ≤ c.feedback ∧ c.feedback ≤ 87 / 100 ∧
        15 / 100 ≤ c.damping ∧ c.damping ≤ 50 / 100 :=
  have h := reachable_comb_bounds averagingOps _
    (DomeReverb.Reachable.setPreset _ DomePreset.Club
      (DomeReverb.Reachable.setDomeAmount _ 7
        (DomeReverb.Reachable.prepare 44100 512 demoEngine demoEngine_spec.1)))
  ⟨h.1, fun c hc => (h.2.2 c (List.mem_append_left _ hc)).1⟩

/-! ## Preparing a filter that holds samples -/

/-- C9 (the code departs from it). A comb filter and an all-pass filter are prepared with
`prepare(1000, 3)` (three samples), process the input `1`, and are prepared again with the
same arguments.  The buffer has `floor (3 * 1000 / 1000) = 3` elements and the write index
is back at `0`, but the buffer is not zeroed: `resize` keeps the samples already stored, so
the buffer of the comb is `[1, 0, 0]` and that of the all-pass is `[1, 0, 0]`. -/
theorem prepare_keeps_samples :
    ((CombFilter.prepare {} 1000 3).bind fun f =>
        (f.process 1).bind fun r => r.1.prepare 1000 3) =
      some { buffer := [1, 0, 0], sampleRate := 1000, writeIndex := 0, delaySamples := 1,
             feedback := 7 / 10, damping := 1 / 2, filterStore := 0 } ∧
    ((AllPassFilter.prepare {} 1000 3).bind fun f =>
        (f.process 1).bind fun r => r.1.prepare 1000 3) =
      some { buffer := [1, 0, 0], sampleRate := 1000, writeIndex := 0, delaySamples := 1,
             coefficient := 1 / 2 } := by
  constructor <;> decide!

/-! ## The processing callback -/

/-- C7 (the code departs from it). The processor holds the preset `Arena` (index 0), the
host moves the preset parameter to `Stadium` (index 1) and the Dome Amount knob stands at
`0.5`.  Whatever the rest of the state, `processBlock` runs the engine on the block with
dome amount `0.5`, wet gain `0.3`, dry gain `0.85` and a low-pass requested at 7500 Hz: the
values of the knob, not those of the preset `Stadium` (`0.8`, `0.48`, `0.76`, 6000 Hz),
because `setDomeAmount(knob)` follows `setPreset` in the same callback. -/
theorem processBlock_knob_overrides_preset {σ : Type} (M : IIRFilterOps σ)
    (e : DomeReverb σ) (numIn numOut : Nat) (buffer : AudioBuffer) :
    let p : DomeLiveSimulatorAudioProcessor σ :=
      { domeAmountParameter := 1 / 2, presetParameter := 1, totalNumInputChannels := numIn,
        totalNumOutputChannels := numOut, domeReverb := e, currentPresetIndex := 0 }
    let used := (DomeLiveSimulatorAudioProcessor.applyParameters M p).domeReverb
    DomeLiveSimulatorAudioProcessor.processBlock M p buffer =
      (DomeReverb.process M used
        ((List.range' numIn (numOut - numIn)).foldl AudioBuffer.clearChannel buffer)).map
        (fun r => ({ DomeLiveSimulatorAudioProcessor.applyParameters M p with
          domeReverb := r.1 }, r.2)) ∧
    used.currentPreset = DomePreset.Stadium ∧
    used.domeAmount = 1 / 2 ∧ used.domeAmount ≠ 8 / 10 ∧
    used.wetGain = 3 / 10 ∧ used.wetGain ≠ 6 / 10 * (8 / 10) ∧
    used.dryGain = 85 / 100 ∧ used.dryGain ≠ 1 - 3 / 10 * (8 / 10) ∧
    used.lowPassFilterL = M.setCoefficients
      (DomeReverb.setPreset M e DomePreset.Stadium).lowPassFilterL
      (IIRCoefficients.makeLowPass e.sampleRate 7500) := by
  have hc : clamp (1 / 2) 0 1 = 1 / 2 := clamp_of_mem (by norm_num) (by norm_num)
  intro p used
  refine ⟨?_, ?_, ?_, ?_, ?_, ?_, ?_, ?_, ?_⟩
  · simp only [DomeLiveSimulatorAudioProcessor.processBlock, Option.bind_eq_bind,
      Option.pure_def, Option.map_eq_bind, Function.comp, used, p]
  all_goals
    norm_num [used, p, DomeLiveSimulatorAudioProcessor.applyParameters, presetOfIndex,
      DomeReverb.setDomeAmount, DomeReverb.setPreset, DomeReverb.updateParameters, hc]

/-! ## The sample loop stays in bounds -/

theorem CombFilter.comb_process_valid {f : CombFilter} (h : f.Valid) (x : ℚ) :
    ∃ g y, f.process x = some (g, y) ∧ g.Valid := by
  obtain ⟨hw0, hw, hd1, hd, hint⟩ := h
  have hr := emod_range (a := f.writeIndex - f.delaySamples) (n := (f.buffer.length : Int))
    (by omega)
  obtain ⟨v, -, hread⟩ := readAt_of_lt f.buffer hr.1 hr.2
  have hge : geSize (f.writeIndex + 1) f.buffer.length
      = decide ((f.buffer.length : Int) ≤ f.writeIndex + 1) :=
    geSize_eq_decide _ (by omega) (by omega)
  have hwr := emod_range (a := f.writeIndex + 1) (n := (f.buffer.length : Int)) (by omega)
  refine ⟨_, _, by simp only [CombFilter.process, wrap_readIndex hw0 hw hd1 hd, hread,
    writeAt_of_lt f.buffer _ hw0 hw, Option.bind_eq_bind, Option.some_bind, Option.pure_def,
    List.length_set, hge, decide_eq_true_eq, wrap_writeIndex hw0 hw]; rfl, ?_⟩
  simp only [CombFilter.Valid, List.length_set]
  exact ⟨hwr.1, hwr.2, hd1, hd, hint⟩

theorem AllPassFilter.allpass_process_valid {f : AllPassFilter} (h : f.Valid) (x : ℚ) :
    ∃ g y, f.process x = some (g, y) ∧ g.Valid := by
  obtain ⟨hw0, hw, hd1, hd, hint⟩ := h
  have hr := emod_range (a := f.writeIndex - f.delaySamples) (n := (f.buffer.length : Int))
    (by omega)
  obtain ⟨v, -, hread⟩ := readAt_of_lt f.buffer hr.1 hr.2
  have hge : geSize (f.writeIndex + 1) f.buffer.length
      = decide ((f.buffer.length : Int) ≤ f.writeIndex + 1) :=
    geSize_eq_decide _ (by omega) (by omega)
  have hwr := emod_range (a := f.writeIndex + 1) (n := (f.buffer.length : Int)) (by omega)
  refine ⟨_, _, by simp only [AllPassFilter.process, wrap_readIndex hw0 hw hd1 hd, hread,
    writeAt_of_lt f.buffer _ hw0 hw, Option.bind_eq_bind, Option.some_bind, Option.pure_def,
    List.length_set, hge, decide_eq_true_eq, wrap_writeIndex hw0 hw]; rfl, ?_⟩
  simp only [AllPassFilter.Valid, List.length_set]
  exact ⟨hwr.1, hwr.2, hd1, hd, hint⟩

theorem DomeReverb.processCombs_valid (x : ℚ) :
    ∀ (cs : List CombFilter) (acc : ℚ), (∀ c ∈ cs, c.Valid) →
      ∃ cs' out, DomeReverb.processCombs x cs acc = some (cs', out) ∧
        cs'.length = cs.length ∧ ∀ c ∈ cs', c.Valid := by
  intro cs
  induction cs with
  | nil => intro acc _; exact ⟨[], acc, rfl, rfl, by simp⟩
  | cons c cs ih =>
    intro acc h
    obtain ⟨g, y, hg, hgv⟩ := CombFilter.comb_process_valid (h c (List.mem_cons_self _ _)) x
    obtain ⟨cs', out, hcs, hlen, hv⟩ :=
      ih (acc + y) (fun d hd => h d (List.mem_cons_of_mem _ hd))
    refine ⟨g :: cs', out, ?_, by simp [hlen], ?_⟩
    · simp only [DomeReverb.processCombs, hg, hcs, Option.bind_eq_bind, Option.some_bind,
        Option.pure_def]
    · intro d hd
      rcases List.mem_cons.mp hd with rfl | hd
      · exact hgv
      · exact hv d hd

theorem DomeReverb.processAllPasses_valid :
    ∀ (as : List AllPassFilter) (x : ℚ), (∀ a ∈ as, a.Valid) →
      ∃ as' out, DomeReverb.processAllPasses as x = some (as', out) ∧
        as'.length = as.length ∧ ∀ a ∈ as', a.Valid := by
  intro as
  induction as with
  | nil => intro x _; exact ⟨[], x, rfl, rfl, by simp⟩
  | cons a as ih =>
    intro x h
    obtain ⟨g, y, hg, hgv⟩ := AllPassFilter.allpass_process_valid (h a (List.mem_cons_self _ _)) x
    obtain ⟨as', out, has, hlen, hv⟩ := ih y (fun d hd => h d (List.mem_cons_of_mem _ hd))
    refine ⟨g :: as', out, ?_, by simp [hlen], ?_⟩
    · simp only [DomeReverb.processAllPasses, hg, has, Option.bind_eq_bind, Option.some_bind,
        Option.pure_def]
    · intro d hd
      rcases List.mem_cons.mp hd with rfl | hd
      · exact hgv
      · exact hv d hd

theorem DomeReverb.processPreDelay_inBounds (x : ℚ) {buffer : List ℚ} {w d : Int}
    (h : DomeReverb.PreDelayInBounds buffer w d) :
    ∃ y buffer' w', DomeReverb.processPreDelay x buffer w d = some (y, buffer', w') ∧
      buffer'.length = buffer.length ∧ DomeReverb.PreDelayInBounds buffer' w' d ∧
      (d = 0 → y = x ∧ buffer' = buffer ∧ w' = w) := by
  by_cases hd : d = 0
  · exact ⟨x, buffer, w, by simp [DomeReverb.processPreDelay, hd], rfl, h, fun _ => ⟨rfl, rfl, rfl⟩⟩
  · rcases h with h | ⟨hw0, hw, hd1, hdl⟩
    · exact absurd h hd
    · have hr := emod_range (a := w - d) (n := (buffer.length : Int)) (by omega)
      obtain ⟨v, -, hread⟩ := readAt_of_lt buffer hr.1 hr.2
      have hwr := emod_range (a := w + 1) (n := (buffer.length : Int)) (by omega)
      refine ⟨v, buffer.set w.toNat x, (w + 1) % (buffer.length : Int), ?_, by simp, ?_,
        fun h0 => absurd h0 hd⟩
      · simp only [DomeReverb.processPreDelay, hd, if_false, wrap_readIndex hw0 hw hd1 hdl,
          hread, writeAt_of_lt buffer _ hw0 hw, Option.bind_eq_bind, Option.some_bind,
          Option.pure_def, List.length_set, ge_iff_le, wrap_writeIndex hw0 hw]
      · right
        simp only [List.length_set]
        exact ⟨hwr.1, hwr.2, hd1, hdl⟩

theorem DomeReverb.wetSignal_inBounds {σ : Type} (M : IIRFilterOps σ) {e : DomeReverb σ}
    (h : e.InBounds) (inputL inputR : ℚ) :
    ∃ e' filteredL filteredR,
      DomeReverb.wetSignal M e inputL inputR = some (e', filteredL, filteredR) ∧
      e'.InBounds ∧ e'.wetGain = e.wetGain ∧ e'.dryGain = e.dryGain := by
  obtain ⟨yL, bL, wL, hpL, -, hbL, -⟩ := DomeReverb.processPreDelay_inBounds
    (M.processSingleSampleRaw e.preEQ_Band7L
      (M.processSingleSampleRaw e.preEQ_Band6L
        (M.processSingleSampleRaw e.preEQ_Band5L
          (M.processSingleSampleRaw e.preEQ_Band4L
            (M.processSingleSampleRaw e.preEQ_Band3L
              (M.processSingleSampleRaw e.preEQ_Band2L
                (M.processSingleSampleRaw e.preEQ_Band1L inputL).2).2).2).2).2).2).2 h.preDelayL
  obtain ⟨yR, bR, wR, hpR, -, hbR, -⟩ := DomeReverb.processPreDelay_inBounds
    (M.processSingleSampleRaw e.preEQ_Band7R
      (M.processSingleSampleRaw e.preEQ_Band6R
        (M.processSingleSampleRaw e.preEQ_Band5R
          (M.processSingleSampleRaw e.preEQ_Band4R
            (M.processSingleSampleRaw e.preEQ_Band3R
              (M.processSingleSampleRaw e.preEQ_Band2R
                (M.processSingleSampleRaw e.preEQ_Band1R inputR).2).2).2).2).2).2).2 h.preDelayR
  obtain ⟨cl, oL, hcl, -, hclv⟩ := DomeReverb.processCombs_valid yL e.combFiltersL 0 h.combsL_valid
  obtain ⟨cr, oR, hcr, -, hcrv⟩ := DomeReverb.processCombs_valid yR e.combFiltersR 0 h.combsR_valid
  obtain ⟨al, aoL, hal, -, halv⟩ := DomeReverb.processAllPasses_valid e.allPassFiltersL
    (oL * (1 / 8) + oR * (1 / 8) * (15 / 100)) h.allPassesL_valid
  obtain ⟨ar, aoR, har, -, harv⟩ := DomeReverb.processAllPasses_valid e.allPassFiltersR
    (oR * (1 / 8) + oL * (1 / 8) * (15 / 100)) h.allPassesR_valid
  have hex : ∃ r, DomeReverb.wetSignal M e inputL inputR = some r := by
    simp only [DomeReverb.wetSignal, DomeReverb.filteredSignal, hpL, hpR, hcl, hcr, hal, har,
      Option.bind_eq_bind, Option.some_bind, Option.pure_def, Option.map_some']
    exact ⟨_, rfl⟩
  obtain ⟨⟨e', fL, fR⟩, hr⟩ := hex
  have hr' := hr
  simp only [DomeReverb.wetSignal, DomeReverb.filteredSignal, hpL, hpR, hcl, hcr, hal, har,
    Option.bind_eq_bind, Option.some_bind, Option.pure_def, Option.map_some',
    Option.some.injEq, Prod.mk.injEq] at hr'
  obtain ⟨rfl, -, -⟩ := hr'
  exact ⟨_, fL, fR, hr, ⟨hclv, hcrv, halv, harv, hbL, hbR⟩, rfl, rfl⟩

/-! ## Audio buffers -/

set_option maxRecDepth 1000000 in
/-- C8 (the code departs from it). An engine is prepared at 250 Hz with the preset `Arena`,
processes the one-sample block `[1]` and is cleared.  Method `clear` resets the two
low-pass and the two low-shelf filters but none of the fourteen pre-EQ filters: the memory
`v1` of the first pre-EQ band is still `1/2` where a fresh engine has `0`, while the memory
of the low-pass filter is `0` again.  The impulse response of the cleared engine differs
from that of a fresh engine with the same parameters: the outputs agree on samples 0 to 9
and sample 10 (the first one the wet path reaches) is `1647/40960000` instead of
`1647/327680000`. -/
theorem clear_keeps_preEQ_memory :
    clearedEngine.map (fun e => (e.preEQ_Band1L.v1, e.lowPassFilterL.v1)) = some (1 / 2, 0) ∧
    freshEngine.map (fun e => (e.preEQ_Band1L.v1, e.lowPassFilterL.v1)) = some (0, 0) ∧
    (freshEngine.bind fun e => DomeReverb.process averagingOps e (impulseBlock 11)).map
        (fun r => r.2.channels) =
      some [[41 / 50, 0, 0, 0, 0, 0, 0, 0, 0, 0, 1647 / 327680000]] ∧
    (clearedEngine.bind fun e => DomeReverb.process averagingOps e (impulseBlock 11)).map
        (fun r => r.2.channels) =
      some [[41 / 50, 0, 0, 0, 0, 0, 0, 0, 0, 0, 1647 / 40960000]] ∧
    impulseResponse freshEngine 11 10 ≠ impulseResponse clearedEngine 11 10 := by
  decide!

/-! ## The stereo width stage -/

/-- The wet path is the path to the low-shelf filters followed by the stereo width stage,
applied with the stereo width of the engine to the two low-shelf outputs of the same
call. -/
theorem DomeReverb.wetSignal_eq {σ : Type} (M : IIRFilterOps σ) (e : DomeReverb σ)
    (inputL inputR : ℚ) :
    DomeReverb.wetSignal M e inputL inputR =
      (DomeReverb.filteredSignal M e inputL inputR).map fun r =>
        (r.1, (DomeReverb.stereoWidthStage r.2.1 r.2.2 e.stereoWidth).1,
          (DomeReverb.stereoWidthStage r.2.1 r.2.2 e.stereoWidth).2) :=
  rfl

/-- C12. The stereo width stage of `process`, for all values `L`, `R` that enter it and
every width `w`: the outputs are `L' = (L + R)/2 + (L - R)/2 * w` and
`R' = (L + R)/2 - (L - R)/2 * w`; for `w = 0` both are `(L + R)/2`; for `w = 1` they are
`L` and `R`; for every `w` the sum is preserved, `L' + R' = L + R`, and the difference is
scaled, `L' - R' = w * (L - R)`.  The same holds inside the sample loop: for every engine
state and every input pair, whenever the path to the low-shelf filters yields the state `e'`
and the outputs `L`, `R`, the wet path yields the same state `e'` and the pair `L'`, `R'`
that the stage computes from these `L`, `R` and the stereo width `w` of the engine, so that
`L' + R' = L + R`, `L' - R' = w * (L - R)`, `L' = R' = (L + R)/2` when `w = 0`, and
`L' = L`, `R' = R` when `w = 1`.  On an engine whose indices are in range the path to the
low-shelf filters does yield such a state and pair. -/
theorem stereo_width_stage (L R w : ℚ) :
    DomeReverb.stereoWidthStage L R w
      = ((L + R) / 2 + (L - R) / 2 * w, (L + R) / 2 - (L - R) / 2 * w) ∧
    DomeReverb.stereoWidthStage L R 0 = ((L + R) / 2, (L + R) / 2) ∧
    DomeReverb.stereoWidthStage L R 1 = (L, R) ∧
    (DomeReverb.stereoWidthStage L R w).1 + (DomeReverb.stereoWidthStage L R w).2 = L + R ∧
    (DomeReverb.stereoWidthStage L R w).1 - (DomeReverb.stereoWidthStage L R w).2
      = w * (L - R) ∧
    (∀ {σ : Type} (M : IIRFilterOps σ) (e e' : DomeReverb σ) (inputL inputR fL fR : ℚ),
      DomeReverb.filteredSignal M e inputL inputR = some (e', fL, fR) →
      DomeReverb.wetSignal M e inputL inputR =
        some (e', (DomeReverb.stereoWidthStage fL fR e.stereoWidth).1,
          (DomeReverb.stereoWidthStage fL fR e.stereoWidth).2) ∧
      ∃ wL wR : ℚ, DomeReverb.wetSignal M e inputL inputR = some (e', wL, wR) ∧
        wL = (fL + fR) / 2 + (fL - fR) / 2 * e.stereoWidth ∧
        wR = (fL + fR) / 2 - (fL - fR) / 2 * e.stereoWidth ∧
        wL + wR = fL + fR ∧
        wL - wR = e.stereoWidth * (fL - fR) ∧
        (e.stereoWidth = 0 → wL = (fL + fR) / 2 ∧ wR = (fL + fR) / 2) ∧
        (e.stereoWidth = 1 → wL = fL ∧ wR = fR)) ∧
    ∀ {σ : Type} (M : IIRFilterOps σ) (e : DomeReverb σ) (inputL inputR : ℚ),
      e.InBounds →
      ∃ e' fL fR, DomeReverb.filteredSignal M e inputL inputR = some (e', fL, fR) := by
  refine ⟨?_, ?_, ?_, ?_, ?_, ?_, ?_⟩
  · simp only [DomeReverb.stereoWidthStage, Prod.mk.injEq]
    constructor <;> ring
  · simp only [DomeReverb.stereoWidthStage, Prod.mk.injEq]
    constructor <;> ring
  · simp only [DomeReverb.stereoWidthStage, Prod.mk.injEq]
    constructor <;> ring
  · simp only [DomeReverb.stereoWidthStage]
    ring
  · simp only [DomeReverb.stereoWidthStage]
    ring
  · intro σ M e e' inputL inputR fL fR h
    have hw : DomeReverb.wetSignal M e inputL inputR =
        some (e', (DomeReverb.stereoWidthStage fL fR e.stereoWidth).1,
          (DomeReverb.stereoWidthStage fL fR e.stereoWidth).2) := by
      rw [DomeReverb.wetSignal_eq, h]
      rfl
    refine ⟨hw, _, _, hw, ?_, ?_, ?_, ?_, ?_, ?_⟩
    · simp only [DomeReverb.stereoWidthStage]
      ring
    · simp only [DomeReverb.stereoWidthStage]
      ring
    · simp only [DomeReverb.stereoWidthStage]
      ring
    · simp only [DomeReverb.stereoWidthStage]
      ring
    · intro h0
      simp only [DomeReverb.stereoWidthStage, h0]
      constructor <;> ring
    · intro h1
      simp only [DomeReverb.stereoWidthStage, h1]
      constructor <;> ring
  · intro σ M e inputL inputR hin
    obtain ⟨e', wL, wR, hw, -⟩ := DomeReverb.wetSignal_inBounds M hin inputL inputR
    rw [DomeReverb.wetSignal_eq, Option.map_eq_some'] at hw
    obtain ⟨⟨e₁, fL, fR⟩, hf, -⟩ := hw
    exact ⟨e₁, fL, fR, hf⟩

/-! ## The delay-length clamp -/

/-- C13 (the code departs from it). A comb filter and an all-pass filter with a buffer of
four samples (`prepare(1000, 4)`) receive `setDelayTime(-2)`: the requested delay is
`n = -2` samples.  The stored delay is `3 = capacity - 1`, not `1`: in the test
`delaySamples >= buffer.size()` the negative `int` is converted to `size_t` and compares as
a huge value, so the upper clamp fires before the test `delaySamples < 1` is reached.  For
the requests `0`, `2` and `9` the stored delays are `1`, `2` and `3`. -/
theorem setDelayTime_negative_delay :
    toInt (-2 * 1000 / 1000) = -2 ∧
    ((CombFilter.prepare {} 1000 4).map fun f => (f.buffer.length,
        (f.setDelayTime (-2)).delaySamples)) = some (4, 3) ∧
    ((AllPassFilter.prepare {} 1000 4).map fun f => (f.buffer.length,
        (f.setDelayTime (-2)).delaySamples)) = some (4, 3) ∧
    ((CombFilter.prepare {} 1000 4).map fun f => ((f.setDelayTime 0).delaySamples,
        (f.setDelayTime 2).delaySamples, (f.setDelayTime 9).delaySamples)) = some (1, 2, 3) ∧
    ((AllPassFilter.prepare {} 1000 4).map fun f => ((f.setDelayTime 0).delaySamples,
        (f.setDelayTime 2).delaySamples, (f.setDelayTime 9).delaySamples)) = some (1, 2, 3) := by
  decide!

/-! ## What the parameter setters leave alone -/

/-- Methods `setFeedback` and `setDamping` change only the feedback and the damping. -/
theorem CombFilter.setFeedback_setDamping_frame (c : CombFilter) (fb dp : ℚ) :
    ((c.setFeedback fb).setDamping dp).buffer = c.buffer ∧
    ((c.setFeedback fb).setDamping dp).sampleRate = c.sampleRate ∧
    ((c.setFeedback fb).setDamping dp).writeIndex = c.writeIndex ∧
    ((c.setFeedback fb).setDamping dp).delaySamples = c.delaySamples ∧
    ((c.setFeedback fb).setDamping dp).filterStore = c.filterStore :=
  ⟨rfl, rfl, rfl, rfl, rfl⟩

theorem DomeReverb.updateParameters_frame {σ : Type} (M : IIRFilterOps σ) (e : DomeReverb σ) :
    (DomeReverb.updateParameters M e).combFiltersL.map
        (fun c => (c.buffer, c.writeIndex, c.filterStore, c.delaySamples)) =
      e.combFiltersL.map (fun c => (c.buffer, c.writeIndex, c.filterStore, c.delaySamples)) ∧
    (DomeReverb.updateParameters M e).combFiltersR.map
        (fun c => (c.buffer, c.writeIndex, c.filterStore, c.delaySamples)) =
      e.combFiltersR.map (fun c => (c.buffer, c.writeIndex, c.filterStore, c.delaySamples)) := by
  constructor <;>
    simp only [DomeReverb.updateParameters, List.map_map] <;>
    apply List.map_congr_left <;>
    intro c _ <;>
    rfl

/-- C14. Methods `setDomeAmount` and `setPreset`, on every engine state: the comb filters
keep their number and, one by one, their buffer (length and contents), write index,
`filterStore` and delay length; the all-pass filters are unchanged altogether (buffer, write
index, delay length, coefficient); the pre-delay buffers and their write indices are
unchanged.  Method `setDomeAmount` also leaves the stereo width, the bass boost and the
current preset as they were. -/
theorem setters_frame {σ : Type} (M : IIRFilterOps σ) (e : DomeReverb σ) (a : ℚ)
    (p : DomePreset) :
    DomeReverb.SameDelayMemory e (DomeReverb.setDomeAmount M e a) ∧
    DomeReverb.SameDelayMemory e (DomeReverb.setPreset M e p) ∧
    (DomeReverb.setDomeAmount M e a).stereoWidth = e.stereoWidth ∧
    (DomeReverb.setDomeAmount M e a).bassBoost = e.bassBoost ∧
    (DomeReverb.setDomeAmount M e a).currentPreset = e.currentPreset := by
  refine ⟨?_, ?_, rfl, rfl, rfl⟩
  · obtain ⟨hL, hR⟩ := DomeReverb.updateParameters_frame M { e with domeAmount := clamp a 0 1 }
    exact ⟨hL, hR, rfl, rfl, rfl, rfl, rfl, rfl⟩
  · cases p
    · obtain ⟨hL, hR⟩ := DomeReverb.updateParameters_frame M
        { e with currentPreset := DomePreset.Arena, domeAmount := 6 / 10,
                 stereoWidth := 8 / 10, bassBoost := 3 / 2 }
      exact ⟨hL, hR, rfl, rfl, rfl, rfl, rfl, rfl⟩
    · obtain ⟨hL, hR⟩ := DomeReverb.updateParameters_frame M
        { e with currentPreset := DomePreset.Stadium, domeAmount := 8 / 10,
                 stereoWidth := 1, bassBoost := 18 / 10 }
      exact ⟨hL, hR, rfl, rfl, rfl, rfl, rfl, rfl⟩
    · obtain ⟨hL, hR⟩ := DomeReverb.updateParameters_frame M
        { e with currentPreset := DomePreset.Hall, domeAmount := 4 / 10,
                 stereoWidth := 6 / 10, bassBoost := 12 / 10 }
      exact ⟨hL, hR, rfl, rfl, rfl, rfl, rfl, rfl⟩
    · obtain ⟨hL, hR⟩ := DomeReverb.updateParameters_frame M
        { e with currentPreset := DomePreset.Club, domeAmount := 25 / 100,
                 stereoWidth := 5 / 10, bassBoost := 2 }
      exact ⟨hL, hR, rfl, rfl, rfl, rfl, rfl, rfl⟩

/-! ## The comb filter stays bounded -/

/-- One call of `CombFilter::process` on a valid filter, in closed form. -/
theorem CombFilter.comb_process_eq {f : CombFilter} (h : f.Valid) (x : ℚ) :
    ∃ delayed : ℚ,
      f.buffer[((f.writeIndex - f.delaySamples) % (f.buffer.length : Int)).toNat]? =
        some delayed ∧
      f.process x = some
        ({ f with
            filterStore := delayed * (1 - f.damping) + f.filterStore * f.damping
            buffer := f.buffer.set f.writeIndex.toNat
              (x + (delayed * (1 - f.damping) + f.filterStore * f.damping) * f.feedback)
            writeIndex := (f.writeIndex + 1) % (f.buffer.length : Int) },
          delayed) := by
  obtain ⟨hw0, hw, hd1, hd, hint⟩ := h
  have hr := emod_range (a := f.writeIndex - f.delaySamples) (n := (f.buffer.length : Int))
    (by omega)
  obtain ⟨v, hv, hread⟩ := readAt_of_lt f.buffer hr.1 hr.2
  refine ⟨v, hv, ?_⟩
  have hge : geSize (f.writeIndex + 1) f.buffer.length
      = decide ((f.buffer.length : Int) ≤ f.writeIndex + 1) :=
    geSize_eq_decide _ (by omega) (by omega)
  simp only [CombFilter.process, wrap_readIndex hw0 hw hd1 hd, hread,
    writeAt_of_lt f.buffer _ hw0 hw, Option.bind_eq_bind, Option.some_bind, Option.pure_def,
    List.length_set, hge, decide_eq_true_eq, wrap_writeIndex hw0 hw]

theorem CombFilter.process_bounded {f : CombFilter} (hv : f.Valid) {B K x : ℚ}
    (hfb0 : 0 ≤ f.feedback) (hdp0 : 0 ≤ f.damping) (hdp1 : f.damping ≤ 1)
    (hK : B + K * f.feedback ≤ K) (hbuf : ∀ b ∈ f.buffer, |b| ≤ K)
    (hfs : |f.filterStore| ≤ K) (hx : |x| ≤ B) :
    ∃ g y, f.process x = some (g, y) ∧ g.Valid ∧ g.feedback = f.feedback ∧
      g.damping = f.damping ∧ (∀ b ∈ g.buffer, |b| ≤ K) ∧ |g.filterStore| ≤ K ∧ |y| ≤ K := by
  obtain ⟨delayed, hdel, hproc⟩ := CombFilter.comb_process_eq hv x
  obtain ⟨g, y, hgy, hgv⟩ := CombFilter.comb_process_valid hv x
  rw [hproc] at hgy
  have hdelK : |delayed| ≤ K := hbuf _ (List.getElem?_mem hdel)
  have hfs' : |delayed * (1 - f.damping) + f.filterStore * f.damping| ≤ K := by
    have h1 : |delayed * (1 - f.damping)| ≤ K * (1 - f.damping) := by
      rw [abs_mul, abs_of_nonneg (by linarith : (0 : ℚ) ≤ 1 - f.damping)]
      exact mul_le_mul_of_nonneg_right hdelK (by linarith)
    have h2 : |f.filterStore * f.damping| ≤ K * f.damping := by
      rw [abs_mul, abs_of_nonneg hdp0]
      exact mul_le_mul_of_nonneg_right hfs hdp0
    calc |delayed * (1 - f.damping) + f.filterStore * f.damping|
        ≤ |delayed * (1 - f.damping)| + |f.filterStore * f.damping| := abs_add _ _
      _ ≤ K * (1 - f.damping) + K * f.damping := add_le_add h1 h2
      _ = K := by ring
  have hcell : |x + (delayed * (1 - f.damping) + f.filterStore * f.damping) * f.feedback|
      ≤ K := by
    have h3 : |(delayed * (1 - f.damping) + f.filterStore * f.damping) * f.feedback|
        ≤ K * f.feedback := by
      rw [abs_mul, abs_of_nonneg hfb0]
      exact mul_le_mul_of_nonneg_right hfs' hfb0
    calc |x + (delayed * (1 - f.damping) + f.filterStore * f.damping) * f.feedback|
        ≤ |x| + |(delayed * (1 - f.damping) + f.filterStore * f.damping) * f.feedback| :=
          abs_add _ _
      _ ≤ B + K * f.feedback := add_le_add hx h3
      _ ≤ K := hK
  simp only [Option.some.injEq, Prod.mk.injEq] at hgy
  obtain ⟨rfl, rfl⟩ := hgy
  refine ⟨_, _, hproc, hgv, rfl, rfl, ?_, hfs', hdelK⟩
  intro b hb
  rcases List.mem_or_eq_of_mem_set hb with hb | rfl
  · exact hbuf b hb
  · exact hcell

theorem CombFilter.processAll_bounded {B K : ℚ} :
    ∀ (xs : List ℚ) (f : CombFilter), f.Valid → 0 ≤ f.feedback → 0 ≤ f.damping →
      f.damping ≤ 1 → B + K * f.feedback ≤ K → (∀ b ∈ f.buffer, |b| ≤ K) →
      |f.filterStore| ≤ K → (∀ x ∈ xs, |x| ≤ B) →
      ∃ g ys, f.processAll xs = some (g, ys) ∧ ys.length = xs.length ∧
        (∀ y ∈ ys, |y| ≤ K) ∧ (∀ b ∈ g.buffer, |b| ≤ K) ∧ |g.filterStore| ≤ K := by
  intro xs
  induction xs with
  | nil =>
    intro f _ _ _ _ _ hbuf hfs _
    exact ⟨f, [], rfl, rfl, by simp, hbuf, hfs⟩
  | cons x xs ih =>
    intro f hv hfb0 hdp0 hdp1 hK hbuf hfs hx
    obtain ⟨g, y, hg, hgv, hgfb, hgdp, hgbuf, hgfs, hy⟩ :=
      CombFilter.process_bounded hv hfb0 hdp0 hdp1 hK hbuf hfs (hx x (List.mem_cons_self _ _))
    obtain ⟨g', ys, hg', hlen, hys, hbuf', hfs'⟩ := ih g hgv (by rw [hgfb]; exact hfb0)
      (by rw [hgdp]; exact hdp0) (by rw [hgdp]; exact hdp1) (by rw [hgfb]; exact hK)
      hgbuf hgfs (fun z hz => hx z (List.mem_cons_of_mem _ hz))
    refine ⟨g', y :: ys, ?_, by simp [hlen], ?_, hbuf', hfs'⟩
    · simp only [CombFilter.processAll, hg, hg', Option.bind_eq_bind, Option.some_bind,
        Option.pure_def]
    · intro z hz
      rcases List.mem_cons.mp hz with rfl | hz
      · exact hy
      · exact hys z hz

/-- C15. A comb filter with feedback in `[0, 0.99]`, damping in `[0, 1]`, capacity at least
2 (and representable as an `int`), write index inside the buffer and delay between 1 and
capacity - 1, started from the cleared state (buffer all zero, `filterStore` zero), fed any
input sequence with `|x| ≤ B`: every call of `process` succeeds, every returned sample
satisfies `|y| ≤ B / (1 - feedback)`, and after the run every buffer cell and `filterStore`
are within the same bound (the statement holds for every sequence, hence after every step).
With feedback at most `0.87` the returned samples satisfy `|y| ≤ B / 0.13`. -/
theorem comb_bounded_output (f : CombFilter) (B : ℚ) (xs : List ℚ)
    (hv : f.Valid) (hfb0 : 0 ≤ f.feedback) (hfb1 : f.feedback ≤ 99 / 100)
    (hdp0 : 0 ≤ f.damping) (hdp1 : f.damping ≤ 1)
    (hzero : ∀ b ∈ f.buffer, b = 0) (hfs : f.filterStore = 0)
    (hB : 0 ≤ B) (hx : ∀ x ∈ xs, |x| ≤ B) :
    ∃ g ys, f.processAll xs = some (g, ys) ∧ ys.length = xs.length ∧
      (∀ y ∈ ys, |y| ≤ B / (1 - f.feedback)) ∧
      (∀ b ∈ g.buffer, |b| ≤ B / (1 - f.feedback)) ∧
      |g.filterStore| ≤ B / (1 - f.feedback) ∧
      (f.feedback ≤ 87 / 100 → ∀ y ∈ ys, |y| ≤ B / (13 / 100)) := by
  have h1 : (0 : ℚ) < 1 - f.feedback := by linarith
  have hK0 : 0 ≤ B / (1 - f.feedback) := div_nonneg hB h1.le
  have hK : B + B / (1 - f.feedback) * f.feedback ≤ B / (1 - f.feedback) := by
    have : B + B / (1 - f.feedback) * f.feedback = B / (1 - f.feedback) := by
      field_simp
      ring
    exact this.le
  obtain ⟨g, ys, hg, hlen, hys, hbuf, hfs'⟩ := CombFilter.processAll_bounded xs f hv hfb0
    hdp0 hdp1 hK (fun b hb => by rw [hzero b hb, abs_zero]; exact hK0)
    (by rw [hfs, abs_zero]; exact hK0) hx
  refine ⟨g, ys, hg, hlen, hys, hbuf, hfs', ?_⟩
  intro h87 y hy
  have h13 : B / (1 - f.feedback) ≤ B / (13 / 100) :=
    div_le_div_of_nonneg_left hB (by norm_num) (by linarith)
  exact (hys y hy).trans h13

/-- The statement of `comb_bounded_output` for a three-sample comb filter with feedback
`0.82` and damping `0.3`, the bound `1` and the inputs `1, -1`. -/
theorem comb_bounded_output_witness :
    ∃ g ys, CombFilter.processAll
        { buffer := [0, 0, 0], sampleRate := 1000, writeIndex := 0, delaySamples := 1,
          feedback := 82 / 100, damping := 3 / 10, filterStore := 0 } [1, -1] = some (g, ys) ∧
      ∀ y ∈ ys, |y| ≤ 1 / (1 - 82 / 100) :=
  have h := comb_bounded_output
    { buffer := [0, 0, 0], sampleRate := 1000, writeIndex := 0, delaySamples := 1,
      feedback := 82 / 100, damping := 3 / 10, filterStore := 0 } 1 [1, -1]
    (by simp [CombFilter.Valid]) (by norm_num) (by norm_num) (by norm_num) (by norm_num)
    (by simp) rfl (by norm_num)
    (by
      intro x hx
      simp only [List.mem_cons, List.mem_singleton, List.not_mem_nil, or_false] at hx
      rcases hx with rfl | rfl <;> norm_num)
  ⟨h.choose, h.choose_spec.choose, h.choose_spec.choose_spec.1,
    h.choose_spec.choose_spec.2.2.1⟩

/-! ## Mono input and stereo input with equal channels -/

/-- One round of the sample loop on a mono buffer `[m]` and on a stereo buffer `[m, r]`
whose second channel agrees with the first from index `i` on: both rounds fail, or both
succeed with the same engine state and the same first channel, and the second channel still
agrees with the first from index `i + 1` on. -/
theorem DomeReverb.processSample_mono_stereo {σ : Type} (M : IIRFilterOps σ)
    (e : DomeReverb σ) (n i : Nat) (m r : List ℚ) (h : ∀ j, i ≤ j → r[j]? = m[j]?) :
    (DomeReverb.processSample M e { numSamples := n, channels := [m] } i = none ∧
      DomeReverb.processSample M e { numSamples := n, channels := [m, r] } i = none) ∨
    ∃ e' m' r',
      DomeReverb.processSample M e { numSamples := n, channels := [m] } i
        = some (e', { numSamples := n, channels := [m'] }) ∧
      DomeReverb.processSample M e { numSamples := n, channels := [m, r] } i
        = some (e', { numSamples := n, channels := [m', r'] }) ∧
      m'.length = m.length ∧ (∀ j, i + 1 ≤ j → r'[j]? = m'[j]?) ∧
      ∃ x fL fR, m[i]? = some x ∧ DomeReverb.wetSignal M e x x = some (e', fL, fR) := by
  by_cases hi : i < n
  · cases hm : m[i]? with
    | none =>
      left
      constructor <;>
        simp [DomeReverb.processSample, AudioBuffer.getSample, hi, hm]
    | some inL =>
      have hr : r[i]? = some inL := by rw [h i le_rfl, hm]
      have hml : i < m.length := (List.getElem?_eq_some.mp hm).1
      have hrl : i < r.length := (List.getElem?_eq_some.mp hr).1
      cases hw : DomeReverb.wetSignal M e inL inL with
      | none =>
        left
        constructor <;>
          simp [DomeReverb.processSample, AudioBuffer.getSample, AudioBuffer.getNumChannels,
            hi, hm, hr, hw]
      | some res =>
        obtain ⟨e', fL, fR⟩ := res
        right
        refine ⟨e', m.set i (inL * e'.dryGain + fL * e'.wetGain),
          r.set i (inL * e'.dryGain + fR * e'.wetGain), ?_, ?_, by simp, ?_,
          inL, fL, fR, rfl, hw⟩
        · simp [DomeReverb.processSample, AudioBuffer.getSample, AudioBuffer.setSample,
            AudioBuffer.getNumChannels, hi, hm, hw, hml]
        · simp [DomeReverb.processSample, AudioBuffer.getSample, AudioBuffer.setSample,
            AudioBuffer.getNumChannels, hi, hm, hr, hw, hml, hrl]
        · intro j hj
          have hne : i ≠ j := by omega
          rw [List.getElem?_set_ne hne, List.getElem?_set_ne hne]
          exact h j (by omega)
  · left
    constructor <;>
      simp [DomeReverb.processSample, AudioBuffer.getSample, hi]

theorem DomeReverb.processLoop_mono_stereo {σ : Type} (M : IIRFilterOps σ) (n : Nat) :
    ∀ (count i : Nat) (e : DomeReverb σ) (m r : List ℚ), (∀ j, i ≤ j → r[j]? = m[j]?) →
      ((DomeReverb.processLoop M count i e { numSamples := n, channels := [m] } = none ∧
          DomeReverb.processLoop M count i e { numSamples := n, channels := [m, r] } = none) ∨
        ∃ e' m' r',
          DomeReverb.processLoop M count i e { numSamples := n, channels := [m] }
            = some (e', { numSamples := n, channels := [m'] }) ∧
          DomeReverb.processLoop M count i e { numSamples := n, channels := [m, r] }
            = some (e', { numSamples := n, channels := [m', r'] })) ∧
      (e.InBounds → i + count ≤ n → n ≤ m.length →
        DomeReverb.processLoop M count i e { numSamples := n, channels := [m] } ≠ none) := by
  intro count
  induction count with
  | zero =>
    intro i e m r _
    exact ⟨Or.inr ⟨e, m, r, rfl, rfl⟩, fun _ _ _ => by simp [DomeReverb.processLoop]⟩
  | succ c ih =>
    intro i e m r h
    rcases DomeReverb.processSample_mono_stereo M e n i m r h with
      ⟨h1, h2⟩ | ⟨e', m', r', h1, h2, hlen, h', x, fL, fR, hx, hw⟩
    · refine ⟨Or.inl ⟨by simp [DomeReverb.processLoop, h1], by simp [DomeReverb.processLoop, h2]⟩,
        ?_⟩
      intro hin hle hlen
      exfalso
      have hml : i < m.length := by omega
      obtain ⟨e₁, fL, fR, hw, -⟩ := DomeReverb.wetSignal_inBounds M hin (m[i]) (m[i])
      have hi : i < n := by omega
      simp [DomeReverb.processSample, AudioBuffer.getSample, AudioBuffer.setSample,
        AudioBuffer.getNumChannels, hi, hml, hw] at h1
    · obtain ⟨hrel, hsome⟩ := ih (i + 1) e' m' r' h'
      constructor
      · rcases hrel with ⟨h3, h4⟩ | ⟨e'', m'', r'', h3, h4⟩
        · left
          constructor
          · simp only [DomeReverb.processLoop, h1, h3, Option.bind_eq_bind, Option.some_bind]
          · simp only [DomeReverb.processLoop, h2, h4, Option.bind_eq_bind, Option.some_bind]
        · right
          refine ⟨e'', m'', r'', ?_, ?_⟩
          · simp only [DomeReverb.processLoop, h1, h3, Option.bind_eq_bind, Option.some_bind]
          · simp only [DomeReverb.processLoop, h2, h4, Option.bind_eq_bind, Option.some_bind]
      · intro hin hle hlen'
        obtain ⟨e₁, fL₁, fR₁, hw₁, hin₁, -⟩ := DomeReverb.wetSignal_inBounds M hin x x
        rw [hw] at hw₁
        simp only [Option.some.injEq, Prod.mk.injEq] at hw₁
        obtain ⟨rfl, -, -⟩ := hw₁
        simp only [DomeReverb.processLoop, h1, Option.bind_eq_bind, Option.some_bind]
        exact hsome hin₁ (by omega) (by omega)

/-- C11. Method `process` from any engine state on a one-channel buffer holding the
samples `xs` and on a two-channel buffer holding `xs` in both channels: both runs fail
together, or both succeed, leave the engine in the same state and put the same samples in
channel 0; the mono buffer still has its single channel, so only channel 0 is written.  On
an engine whose filter indices are in range, with a buffer of `xs.length` samples, the runs
succeed. -/
theorem mono_equals_stereo {σ : Type} (M : IIRFilterOps σ) (e : DomeReverb σ)
    (xs : List ℚ) (n : Nat) :
    ((DomeReverb.process M e { numSamples := n, channels := [xs] } = none ∧
        DomeReverb.process M e { numSamples := n, channels := [xs, xs] } = none) ∨
      ∃ e' ys rs,
        DomeReverb.process M e { numSamples := n, channels := [xs] }
          = some (e', { numSamples := n, channels := [ys] }) ∧
        DomeReverb.process M e { numSamples := n, channels := [xs, xs] }
          = some (e', { numSamples := n, channels := [ys, rs] })) ∧
    (e.InBounds → n = xs.length →
      ∃ e' ys rs,
        DomeReverb.process M e { numSamples := n, channels := [xs] }
          = some (e', { numSamples := n, channels := [ys] }) ∧
        DomeReverb.process M e { numSamples := n, channels := [xs, xs] }
          = some (e', { numSamples := n, channels := [ys, rs] })) := by
  obtain ⟨hrel, hsome⟩ := DomeReverb.processLoop_mono_stereo M n n 0 e xs xs (fun _ _ => rfl)
  have hm : DomeReverb.process M e { numSamples := n, channels := [xs] }
      = DomeReverb.processLoop M n 0 e { numSamples := n, channels := [xs] } := by
    simp [DomeReverb.process, AudioBuffer.getNumChannels]
  have hs : DomeReverb.process M e { numSamples := n, channels := [xs, xs] }
      = DomeReverb.processLoop M n 0 e { numSamples := n, channels := [xs, xs] } := by
    simp [DomeReverb.process, AudioBuffer.getNumChannels]
  rw [hm, hs]
  refine ⟨hrel, ?_⟩
  intro hin hn
  rcases hrel with ⟨h1, -⟩ | h
  · exact absurd h1 (hsome hin (by omega) (by omega))
  · exact h

theorem DomeReverb.preDelayInBounds_clamp {buffer : List ℚ} {w n : Int} (hw0 : 0 ≤ w)
    (hw : w < (buffer.length : Int)) (hn : 0 ≤ n) :
    DomeReverb.PreDelayInBounds buffer w
      (if n ≥ (buffer.length : Int) then (buffer.length : Int) - 1 else n) := by
  unfold DomeReverb.PreDelayInBounds
  split_ifs with h
  · by_cases h1 : (buffer.length : Int) - 1 = 0
    · exact Or.inl h1
    · exact Or.inr ⟨hw0, hw, by omega, le_refl _⟩
  · by_cases h0 : n = 0
    · exact Or.inl h0
    · exact Or.inr ⟨hw0, hw, by omega, by omega⟩

/-- After `setDomeAmount` on a prepared engine every index that `process` uses is in
range. -/
theorem DomeReverb.setDomeAmount_inBounds {σ : Type} (M : IIRFilterOps σ) {e : DomeReverb σ}
    (hp : e.Prepared) (a : ℚ) : (DomeReverb.setDomeAmount M e a).InBounds := by
  obtain ⟨hc0, -⟩ := clamp_unit_range a
  have hsr := hp.sampleRate_pos
  refine ⟨?_, ?_, hp.allPassesL_valid, hp.allPassesR_valid, ?_, ?_⟩
  · intro c hc'
    simp only [DomeReverb.setDomeAmount, DomeReverb.updateParameters] at hc'
    obtain ⟨g, hg, rfl⟩ := List.mem_map.mp hc'
    exact CombFilter.valid_setFeedback_setDamping (hp.combsL_valid g hg) _ _
  · intro c hc'
    simp only [DomeReverb.setDomeAmount, DomeReverb.updateParameters] at hc'
    obtain ⟨g, hg, rfl⟩ := List.mem_map.mp hc'
    exact CombFilter.valid_setFeedback_setDamping (hp.combsR_valid g hg) _ _
  · exact DomeReverb.preDelayInBounds_clamp hp.preDelayL_index.1 hp.preDelayL_index.2
      (toInt_nonneg (roundDouble_nonneg (div_nonneg (roundDouble_nonneg
        (mul_nonneg (roundFloat_nonneg (by positivity)) hsr.le)) (by norm_num))))
  · exact DomeReverb.preDelayInBounds_clamp hp.preDelayR_index.1 hp.preDelayR_index.2
      (toInt_nonneg (roundDouble_nonneg (div_nonneg (roundDouble_nonneg
        (mul_nonneg (roundFloat_nonneg (by positivity)) hsr.le)) (by norm_num))))

/-- The statement of `mono_equals_stereo` for the engine prepared at 44100 Hz with the dome
amount `0.6` and the samples `1, 2`: both runs succeed. -/
theorem mono_equals_stereo_witness :
    ∃ e' ys rs,
      DomeReverb.process averagingOps (DomeReverb.setDomeAmount averagingOps demoEngine (6 / 10))
          { numSamples := 2, channels := [[1, 2]] }
        = some (e', { numSamples := 2, channels := [ys] }) ∧
      DomeReverb.process averagingOps (DomeReverb.setDomeAmount averagingOps demoEngine (6 / 10))
          { numSamples := 2, channels := [[1, 2], [1, 2]] }
        = some (e', { numSamples := 2, channels := [ys, rs] }) :=
  (mono_equals_stereo averagingOps
    (DomeReverb.setDomeAmount averagingOps demoEngine (6 / 10)) [1, 2] 2).2
    (DomeReverb.setDomeAmount_inBounds averagingOps demoEngine_spec.2.1 (6 / 10)) rfl

/-- The statement of `stereo_width_stage` in the sample loop of the engine prepared at
44100 Hz with the dome amount `0.6` (stereo width `0.8`) and the input pair `1, 2`: the
path to the low-shelf filters yields a pair `L`, `R`, and the wet path returns `L'`, `R'`
with `L' + R' = L + R` and `L' - R' = 0.8 * (L - R)`. -/
theorem stereo_width_stage_witness :
    ∃ e' fL fR wL wR,
      DomeReverb.filteredSignal averagingOps
        (DomeReverb.setDomeAmount averagingOps demoEngine (6 / 10)) 1 2 = some (e', fL, fR) ∧
      DomeReverb.wetSignal averagingOps
        (DomeReverb.setDomeAmount averagingOps demoEngine (6 / 10)) 1 2 = some (e', wL, wR) ∧
      wL + wR = fL + fR ∧ wL - wR = 8 / 10 * (fL - fR) := by
  obtain ⟨-, -, -, -, -, hstage, hsucc⟩ := stereo_width_stage 0 0 0
  obtain ⟨e', fL, fR, hf⟩ := hsucc averagingOps
    (DomeReverb.setDomeAmount averagingOps demoEngine (6 / 10)) 1 2
    (DomeReverb.setDomeAmount_inBounds averagingOps demoEngine_spec.2.1 (6 / 10))
  obtain ⟨-, wL, wR, hw, -, -, hsum, hdiff, -, -⟩ := hstage averagingOps _ _ _ _ _ _ hf
  have hwidth : (DomeReverb.setDomeAmount averagingOps demoEngine (6 / 10)).stereoWidth
      = 8 / 10 := by decide!
  exact ⟨e', fL, fR, wL, wR, hf, hw, hsum, hwidth ▸ hdiff⟩

/-! ## The circular buffer is a delay line -/

theorem delayLineHolds_init {buffer : List ℚ} (w : Int) (v : Nat → ℚ)
    (hzero : ∀ b ∈ buffer, b = 0) : DelayLineHolds buffer w 0 v := by
  intro j hj
  have hr := emod_range (a := w - 1 - (j : Int)) (n := (buffer.length : Int)) (by omega)
  obtain ⟨x, hx, -⟩ := readAt_of_lt buffer hr.1 hr.2
  rw [hx, hzero x (List.getElem?_mem hx)]
  simp

theorem delayLineHolds_read {buffer : List ℚ} {w d : Int} {n : Nat} {v : Nat → ℚ}
    (h : DelayLineHolds buffer w n v) (hd1 : 1 ≤ d) (hd : d ≤ (buffer.length : Int) - 1) :
    buffer[((w - d) % (buffer.length : Int)).toNat]? =
      some (if d.toNat ≤ n then v (n - d.toNat) else 0) := by
  have hj := h (d.toNat - 1) (by omega)
  have e1 : w - 1 - ((d.toNat - 1 : Nat) : Int) = w - d := by omega
  rw [e1] at hj
  rw [hj]
  by_cases hn : d.toNat ≤ n
  · have h1 : d.toNat - 1 < n := by omega
    have h2 : n - 1 - (d.toNat - 1) = n - d.toNat := by omega
    simp only [h1, hn, if_true, h2]
  · have h1 : ¬ (d.toNat - 1 < n) := by omega
    simp only [h1, hn, if_false]

theorem emod_sub_wrap (a b L : Int) : (a % L - b) % L = (a - b) % L := by
  rw [Int.sub_emod, Int.emod_emod, ← Int.sub_emod]

theorem delayLineHolds_write {buffer : List ℚ} {w : Int} {n : Nat} {v : Nat → ℚ}
    (hw0 : 0 ≤ w) (hw : w < (buffer.length : Int)) (h : DelayLineHolds buffer w n v) :
    DelayLineHolds (buffer.set w.toNat (v n)) ((w + 1) % (buffer.length : Int)) (n + 1) v := by
  intro j hj
  rw [List.length_set] at hj ⊢
  have hidx : ((w + 1) % (buffer.length : Int) - 1 - (j : Int)) % (buffer.length : Int)
      = (w - (j : Int)) % (buffer.length : Int) := by
    have e1 : (w + 1) % (buffer.length : Int) - 1 - (j : Int)
        = (w + 1) % (buffer.length : Int) - (1 + (j : Int)) := by ring
    have e2 : w - (j : Int) = (w + 1) - (1 + (j : Int)) := by ring
    rw [e1, e2, emod_sub_wrap]
  rw [hidx]
  rcases Nat.eq_zero_or_pos j with rfl | hjpos
  · have e3 : (w - ((0 : Nat) : Int)) % (buffer.length : Int) = w := by
      simp only [Nat.cast_zero, sub_zero]
      exact Int.emod_eq_of_lt hw0 hw
    rw [e3, List.getElem?_set_self (by omega)]
    simp
  · have hr := emod_range (a := w - (j : Int)) (n := (buffer.length : Int)) (by omega)
    have hne : (w - (j : Int)) % (buffer.length : Int) ≠ w := by
      by_cases hjw : (j : Int) ≤ w
      · rw [Int.emod_eq_of_lt (by omega) (by omega)]
        omega
      · rw [← Int.add_emod_self, Int.emod_eq_of_lt (by omega) (by omega)]
        omega
    have hne' : w.toNat ≠ ((w - (j : Int)) % (buffer.length : Int)).toNat := by
      intro he
      apply hne
      omega
    rw [List.getElem?_set_ne hne']
    have hj' := h (j - 1) (by omega)
    have e4 : w - 1 - ((j - 1 : Nat) : Int) = w - (j : Int) := by omega
    rw [e4] at hj'
    rw [hj']
    by_cases hn : j < n + 1
    · have h1 : j - 1 < n := by omega
      have h2 : n - 1 - (j - 1) = n + 1 - 1 - j := by omega
      simp only [h1, hn, if_true, h2]
    · have h1 : ¬ (j - 1 < n) := by omega
      simp only [h1, hn, if_false]

theorem list_eq_map_range' (xs : List ℚ) :
    xs = (List.range' 0 xs.length).map (fun k => xs.getD k 0) := by
  apply List.ext_getElem?
  intro i
  by_cases hi : i < xs.length
  · simp [List.getElem?_range', hi]
  · rw [List.getElem?_eq_none (not_lt.mp hi), List.getElem?_map,
      List.getElem?_eq_none (by simp only [List.length_range']; omega)]
    rfl

/-! ## The pre-delay line -/

theorem DomeReverb.processPreDelay_eq (x : ℚ) {buffer : List ℚ} {w d : Int}
    (hw0 : 0 ≤ w) (hw : w < (buffer.length : Int)) (hd1 : 1 ≤ d)
    (hd : d ≤ (buffer.length : Int) - 1) :
    ∃ delayed, buffer[((w - d) % (buffer.length : Int)).toNat]? = some delayed ∧
      DomeReverb.processPreDelay x buffer w d =
        some (delayed, buffer.set w.toNat x, (w + 1) % (buffer.length : Int)) := by
  have hd0 : d ≠ 0 := by omega
  have hr := emod_range (a := w - d) (n := (buffer.length : Int)) (by omega)
  obtain ⟨v, hv, hread⟩ := readAt_of_lt buffer hr.1 hr.2
  refine ⟨v, hv, ?_⟩
  simp only [DomeReverb.processPreDelay, hd0, if_false, wrap_readIndex hw0 hw hd1 hd,
    hread, writeAt_of_lt buffer _ hw0 hw, Option.bind_eq_bind, Option.some_bind,
    Option.pure_def, List.length_set, ge_iff_le, wrap_writeIndex hw0 hw]

theorem DomeReverb.processPreDelayAll_run (x : Nat → ℚ) {d : Int} (hd1 : 1 ≤ d) :
    ∀ (m n : Nat) (buffer : List ℚ) (w : Int), 0 ≤ w → w < (buffer.length : Int) →
      d ≤ (buffer.length : Int) - 1 → DelayLineHolds buffer w n x →
      ∃ buffer' w', DomeReverb.processPreDelayAll d ((List.range' n m).map x) buffer w =
        some ((List.range' n m).map (fun k => if d.toNat ≤ k then x (k - d.toNat) else 0),
          buffer', w') := by
  intro m
  induction m with
  | zero =>
    intro n buffer w _ _ _ _
    exact ⟨buffer, w, rfl⟩
  | succ m ih =>
    intro n buffer w hw0 hw hd h
    obtain ⟨delayed, hdel, hstep⟩ := DomeReverb.processPreDelay_eq (x n) hw0 hw hd1 hd
    rw [delayLineHolds_read h hd1 hd, Option.some.injEq] at hdel
    have hr := emod_range (a := w + 1) (n := (buffer.length : Int)) (by omega)
    obtain ⟨b', w', hrun⟩ := ih (n + 1) (buffer.set w.toNat (x n))
      ((w + 1) % (buffer.length : Int)) hr.1 (by rw [List.length_set]; exact hr.2)
      (by rw [List.length_set]; exact hd)
      (delayLineHolds_write hw0 hw h)
    refine ⟨b', w', ?_⟩
    simp only [List.range'_succ, List.map_cons, DomeReverb.processPreDelayAll, hstep, hrun,
      Option.bind_eq_bind, Option.some_bind, Option.pure_def, hdel]

/-- C17. The pre-delay line is a pure delay.  For a buffer of zeros, a write index inside
the buffer and a fixed delay `d` between 1 and capacity - 1 (so the capacity is at least 2),
successive calls of `processPreDelay` on the inputs `xs` all succeed, and call number `n`
returns `0` when `n < d` and `xs[n - d]` when `n ≥ d`.  With delay `0` a call returns its
input and leaves the buffer and the write index as they are. -/
theorem preDelay_pure_delay (buffer : List ℚ) (w d : Int) (xs : List ℚ)
    (hw0 : 0 ≤ w) (hw : w < (buffer.length : Int))
    (hzero : ∀ b ∈ buffer, b = 0) (hd1 : 1 ≤ d) (hd : d ≤ (buffer.length : Int) - 1) :
    (∃ buffer' w', DomeReverb.processPreDelayAll d xs buffer w =
      some ((List.range xs.length).map
          (fun n : Nat => if (n : Int) < d then 0 else xs.getD (n - d.toNat) 0),
        buffer', w')) ∧
    ∀ (x : ℚ) (b : List ℚ) (c : Int), DomeReverb.processPreDelay x b c 0 = some (x, b, c) := by
  constructor
  · obtain ⟨b', w', h⟩ := DomeReverb.processPreDelayAll_run (fun k => xs.getD k 0) hd1
      xs.length 0 buffer w hw0 hw hd (delayLineHolds_init w _ hzero)
    rw [← list_eq_map_range' xs] at h
    refine ⟨b', w', ?_⟩
    rw [h, List.range_eq_range']
    congr 2
    apply List.map_congr_left
    intro n _
    by_cases hn : (n : Int) < d
    · have : ¬ d.toNat ≤ n := by omega
      simp only [hn, this, if_true, if_false]
    · have : d.toNat ≤ n := by omega
      simp only [hn, this, if_true, if_false]
  · intro x b c
    simp [DomeReverb.processPreDelay]

/-- The statement of `preDelay_pure_delay` for a buffer of four zeros, write index 3,
delay 2 and the inputs `5, 6, 7`. -/
theorem preDelay_pure_delay_witness :
    ∃ buffer' w', DomeReverb.processPreDelayAll 2 [5, 6, 7] [0, 0, 0, 0] 3 =
      some ((List.range [(5 : ℚ), 6, 7].length).map
          (fun n : Nat => if (n : Int) < 2 then 0 else [(5 : ℚ), 6, 7].getD (n - (2 : Int).toNat) 0),
        buffer', w') :=
  (preDelay_pure_delay [0, 0, 0, 0] 3 2 [5, 6, 7] (by decide) (by decide)
    (by simp) (by decide) (by decide)).1

/-! ## The comb filter and its recurrence -/

theorem combRecurrence_fst (fb dp : ℚ) (d : Nat) (x : Nat → ℚ) (n : Nat) :
    (combRecurrence fb dp d x n).1 =
      if 0 < d ∧ d ≤ n then x (n - d) + fb * (combRecurrence fb dp d x (n - d)).2 else 0 := by
  rw [combRecurrence]
  split_ifs <;> rfl

theorem combRecurrence_snd (fb dp : ℚ) (d : Nat) (x : Nat → ℚ) (n : Nat) :
    (combRecurrence fb dp d x n).2 =
      (1 - dp) * (combRecurrence fb dp d x n).1 +
        dp * (if 0 < n then (combRecurrence fb dp d x (n - 1)).2 else 0) := by
  rw [combRecurrence_fst]
  conv_lhs => rw [combRecurrence]
  split_ifs <;> rfl

theorem CombFilter.processAll_run (fb dp : ℚ) (d : Nat) (x : Nat → ℚ) (hd : 0 < d) :
    ∀ (m n : Nat) (f : CombFilter), f.Valid → f.feedback = fb → f.damping = dp →
      f.delaySamples = (d : Int) →
      DelayLineHolds f.buffer f.writeIndex n
        (fun k => x k + (combRecurrence fb dp d x k).2 * fb) →
      f.filterStore = (if 0 < n then (combRecurrence fb dp d x (n - 1)).2 else 0) →
      ∃ g, f.processAll ((List.range' n m).map x) =
          some (g, (List.range' n m).map (fun k => (combRecurrence fb dp d x k).1)) ∧
        g.filterStore = (if 0 < n + m then (combRecurrence fb dp d x (n + m - 1)).2 else 0) := by
  intro m
  induction m with
  | zero =>
    intro n f _ _ _ _ _ hfs
    exact ⟨f, rfl, hfs⟩
  | succ m ih =>
    intro n f hv hfb hdp hdl hring hfs
    obtain ⟨delayed, hdel, hstep⟩ := CombFilter.comb_process_eq hv (x n)
    obtain ⟨g₀, y₀, hg₀, hgv⟩ := CombFilter.comb_process_valid hv (x n)
    rw [hstep, Option.some.injEq, Prod.mk.injEq] at hg₀
    obtain ⟨hg₀, -⟩ := hg₀
    obtain ⟨hw0, hw, hd1, hdle, -⟩ := hv
    rw [delayLineHolds_read hring hd1 hdle, Option.some.injEq] at hdel
    have hdn : f.delaySamples.toNat = d := by omega
    have hy : delayed = (combRecurrence fb dp d x n).1 := by
      rw [← hdel, combRecurrence_fst, hdn]
      by_cases hle : d ≤ n
      · rw [if_pos hle, if_pos ⟨hd, hle⟩]
        ring
      · rw [if_neg hle, if_neg (fun h => hle h.2)]
    have hs : delayed * (1 - f.damping) + f.filterStore * f.damping
        = (combRecurrence fb dp d x n).2 := by
      rw [combRecurrence_snd, hfs, hdp, hy]
      ring
    rw [hs, hfb] at hstep hg₀
    subst hg₀
    have hring' := delayLineHolds_write (v := fun k => x k + (combRecurrence fb dp d x k).2 * fb)
      hw0 hw hring
    have hfs' : (combRecurrence fb dp d x n).2
        = (if 0 < n + 1 then (combRecurrence fb dp d x (n + 1 - 1)).2 else 0) := by
      simp
    obtain ⟨g, hrun, hgfs⟩ := ih (n + 1) _ hgv rfl hdp hdl hring' hfs'
    refine ⟨g, ?_, ?_⟩
    · simp only [List.range'_succ, List.map_cons, CombFilter.processAll, hstep, hrun,
        Option.bind_eq_bind, Option.some_bind, Option.pure_def, hy]
    · rw [hgfs]
      have e1 : n + 1 + m = n + (m + 1) := by omega
      rw [e1]

theorem CombFilter.processAll_cleared (f : CombFilter) (xs : List ℚ) (hv : f.Valid)
    (hzero : ∀ b ∈ f.buffer, b = 0) (hfs : f.filterStore = 0) :
    ∃ g, f.processAll xs = some (g, (List.range xs.length).map (fun n =>
          (combRecurrence f.feedback f.damping f.delaySamples.toNat
            (fun k => xs.getD k 0) n).1)) ∧
      g.filterStore = (if 0 < xs.length then
        (combRecurrence f.feedback f.damping f.delaySamples.toNat
          (fun k => xs.getD k 0) (xs.length - 1)).2 else 0) := by
  have hd : 0 < f.delaySamples.toNat := by
    have := hv.2.2.1
    omega
  have hdl : f.delaySamples = (f.delaySamples.toNat : Int) := by
    have := hv.2.2.1
    omega
  obtain ⟨g, hrun, hgfs⟩ := CombFilter.processAll_run f.feedback f.damping
    f.delaySamples.toNat (fun k => xs.getD k 0) hd xs.length 0 f hv rfl rfl hdl
    (delayLineHolds_init _ _ hzero) (by simpa using hfs)
  rw [← list_eq_map_range' xs] at hrun
  refine ⟨g, ?_, ?_⟩
  · rw [hrun, List.range_eq_range']
  · rw [hgfs]
    simp

/-- C19. A comb filter with capacity at least 2 (and representable as an `int`), a write
index anywhere in the buffer and a delay `d` between 1 and capacity - 1, started from the
cleared state and fed the inputs `xs`: every call of `process` succeeds, call number `n`
returns `y n` and leaves `filterStore = s n`, where `y n = 0` for `n < d`,
`y n = x (n - d) + fb * s (n - d)` for `n ≥ d` and `s n = (1 - dp) * y n + dp * s (n - 1)`
with `s (-1) = 0`.  With damping `0` this is `y n = x (n - d) + fb * y (n - d)`.  The
returned samples do not depend on the write index the run starts from (nor on the
capacity). -/
theorem comb_recurrence (f : CombFilter) (xs : List ℚ) (hv : f.Valid)
    (hzero : ∀ b ∈ f.buffer, b = 0) (hfs : f.filterStore = 0) :
    (∃ g, f.processAll xs = some (g, (List.range xs.length).map (fun n =>
          (combRecurrence f.feedback f.damping f.delaySamples.toNat
            (fun k => xs.getD k 0) n).1)) ∧
      g.filterStore = (if 0 < xs.length then
        (combRecurrence f.feedback f.damping f.delaySamples.toNat
          (fun k => xs.getD k 0) (xs.length - 1)).2 else 0)) ∧
    (∀ (x : Nat → ℚ) (n : Nat),
      (combRecurrence f.feedback f.damping f.delaySamples.toNat x n).1 =
        (if n < f.delaySamples.toNat then 0
          else x (n - f.delaySamples.toNat) + f.feedback *
            (combRecurrence f.feedback f.damping f.delaySamples.toNat x
              (n - f.delaySamples.toNat)).2) ∧
      (combRecurrence f.feedback f.damping f.delaySamples.toNat x n).2 =
        (1 - f.damping) * (combRecurrence f.feedback f.damping f.delaySamples.toNat x n).1 +
          f.damping * (if n = 0 then 0
            else (combRecurrence f.feedback f.damping f.delaySamples.toNat x (n - 1)).2)) ∧
    (f.damping = 0 → ∀ (x : Nat → ℚ) (n : Nat), f.delaySamples.toNat ≤ n →
      (combRecurrence f.feedback f.damping f.delaySamples.toNat x n).1 =
        x (n - f.delaySamples.toNat) + f.feedback *
          (combRecurrence f.feedback f.damping f.delaySamples.toNat x
            (n - f.delaySamples.toNat)).1) ∧
    (∀ f₂ : CombFilter, f₂.Valid → (∀ b ∈ f₂.buffer, b = 0) → f₂.filterStore = 0 →
      f₂.feedback = f.feedback → f₂.damping = f.damping → f₂.delaySamples = f.delaySamples →
      (f₂.processAll xs).map Prod.snd = (f.processAll xs).map Prod.snd) := by
  have hd : 0 < f.delaySamples.toNat := by
    have := hv.2.2.1
    omega
  have hrec : ∀ (x : Nat → ℚ) (n : Nat),
      (combRecurrence f.feedback f.damping f.delaySamples.toNat x n).1 =
        (if n < f.delaySamples.toNat then 0
          else x (n - f.delaySamples.toNat) + f.feedback *
            (combRecurrence f.feedback f.damping f.delaySamples.toNat x
              (n - f.delaySamples.toNat)).2) := by
    intro x n
    rw [combRecurrence_fst]
    by_cases hn : n < f.delaySamples.toNat
    · rw [if_pos hn, if_neg (fun h => by omega)]
    · rw [if_neg hn, if_pos ⟨hd, by omega⟩]
  refine ⟨CombFilter.processAll_cleared f xs hv hzero hfs, ?_, ?_, ?_⟩
  · intro x n
    refine ⟨hrec x n, ?_⟩
    rw [combRecurrence_snd]
    rcases Nat.eq_zero_or_pos n with rfl | hn
    · simp
    · rw [if_pos hn, if_neg (by omega)]
  · intro hdp x n hn
    rw [hrec x n, if_neg (by omega)]
    congr 2
    rw [combRecurrence_snd, hdp]
    ring
  · intro f₂ hv₂ hzero₂ hfs₂ hfb hdp hdl
    obtain ⟨g₂, h₂, -⟩ := CombFilter.processAll_cleared f₂ xs hv₂ hzero₂ hfs₂
    obtain ⟨g, h, -⟩ := CombFilter.processAll_cleared f xs hv hzero hfs
    rw [h₂, h, hfb, hdp, hdl]
    rfl

/-- The statement of `comb_recurrence` for a three-sample comb filter with delay 2 that
starts at write index 1, and the inputs `1, 0, 0, 0`. -/
theorem comb_recurrence_witness :
    ∃ g, CombFilter.processAll
        { buffer := [0, 0, 0], sampleRate := 1000, writeIndex := 1, delaySamples := 2,
          feedback := 82 / 100, damping := 3 / 10, filterStore := 0 } [1, 0, 0, 0] =
      some (g, (List.range [(1 : ℚ), 0, 0, 0].length).map (fun n =>
        (combRecurrence (82 / 100) (3 / 10) (2 : Int).toNat
          (fun k => [(1 : ℚ), 0, 0, 0].getD k 0) n).1)) ∧
      g.filterStore = (if 0 < [(1 : ℚ), 0, 0, 0].length then
        (combRecurrence (82 / 100) (3 / 10) (2 : Int).toNat
          (fun k => [(1 : ℚ), 0, 0, 0].getD k 0) ([(1 : ℚ), 0, 0, 0].length - 1)).2 else 0) :=
  (comb_recurrence
    { buffer := [0, 0, 0], sampleRate := 1000, writeIndex := 1, delaySamples := 2,
      feedback := 82 / 100, damping := 3 / 10, filterStore := 0 } [1, 0, 0, 0]
    (by simp [CombFilter.Valid]) (by simp) rfl).1

/-! ## The all-pass filter and its documented equation -/

/-- C18 (the code departs from it). The all-pass filter built by the source with its default
coefficient `g = 0.5`, a delay `d = 1` and a cleared two-sample buffer processes the inputs
`x = 1, 0`.  It returns `y 0 = -0.5`, which is `-g * x 0`, and `y 1 = 1`; the documented
equation `y 1 = -g * x 1 + x 0 + g * y 0` gives `0.75`.  The code returns
`g * g * x 0 = 0.25` more. -/
theorem allpass_differs_from_documented_equation :
    (unitAllPass.bind fun f => f.processAll [1, 0]).map Prod.snd = some [-(1 / 2), 1] ∧
    (-(1 / 2) : ℚ) = -(1 / 2) * 1 ∧
    (1 : ℚ) ≠ -(1 / 2) * 0 + 1 + 1 / 2 * -(1 / 2) ∧
    (1 : ℚ) = -(1 / 2) * 0 + 1 + 1 / 2 * -(1 / 2) + 1 / 2 * (1 / 2) * 1 := by
  decide!

/-! ## Preparing again at a lower sample rate -/

set_option maxRecDepth 1000000 in
/-- C16 (the code departs from it). An engine is prepared at 96000 Hz, set to the dome
amount `1` (pre-delays of 2400 and 2880 samples), and prepared again at 44100 Hz.  The
second `prepare` shrinks the pre-delay buffers to 2205 samples and resets their write
indices but keeps the pre-delay lengths, which now exceed the capacity: `process` on a block
of one sample reads `preDelayBufferL[0 - 2400 + 2205]`, outside the buffer. -/
theorem process_out_of_bounds_after_prepare :
    repreparedEngine.map (fun e => (e.preDelaySamplesL, e.preDelaySamplesR,
      e.preDelayBufferL.length, e.preDelayBufferR.length, e.preDelayWriteIndexL))
      = some (2400, 2880, 2205, 2205, 0) ∧
    (repreparedEngine.bind fun e =>
      DomeReverb.process averagingOps e { numSamples := 1, channels := [[0], [0]] }) = none := by
  decide!

end DomeLive
